import Mathlib

set_option maxHeartbeats 1000000

/-!
Verification development for the SyncHive browser client (`src/client.ts`).

The development shallowly embeds the authentication core of the client:
the publishable-key decoder, the settings resolver, the callback
detector and URL scrubber, the session-renewal guard, the sign-in
strategy selector, the init/callback-exchange flow, and the auth-state
broadcaster.  Platform primitives used by the source (`URLSearchParams`,
`URL`, `atob`) are modelled at the byte level following the WHATWG
algorithms they implement, restricted to the behaviour the client
exercises; each model notes its simplifications where it is defined.
-/

/-! ## UTF-8 byte codec

JS strings handed to `URLSearchParams` are processed as their UTF-8
bytes by the application/x-www-form-urlencoded parser and serializer.
We model that byte layer explicitly.  The decoder emits U+FFFD for
invalid sequences and resynchronises after the offending lead byte;
only its behaviour on valid sequences matters for the theorems below.
-/

def utf8EncodeChar (c : Char) : List Nat :=
  if c.toNat < 0x80 then [c.toNat]
  else if c.toNat < 0x800 then
    [0xC0 + c.toNat / 0x40, 0x80 + c.toNat % 0x40]
  else if c.toNat < 0x10000 then
    [0xE0 + c.toNat / 0x1000, 0x80 + c.toNat / 0x40 % 0x40, 0x80 + c.toNat % 0x40]
  else
    [0xF0 + c.toNat / 0x40000, 0x80 + c.toNat / 0x1000 % 0x40,
     0x80 + c.toNat / 0x40 % 0x40, 0x80 + c.toNat % 0x40]

def utf8Encode : List Char → List Nat
  | [] => []
  | c :: cs => utf8EncodeChar c ++ utf8Encode cs

def replChar : Char := Char.ofNat 0xFFFD

/-- Decoder state: either at a character boundary, or inside a multi-byte
sequence with an accumulated value, a count of continuation bytes still
needed, and the allowed range for the next byte (the WHATWG UTF-8 decoder
ranges, which exclude overlong forms and surrogates). -/
inductive Utf8State
  | start
  | mid (acc need lo hi : Nat)
deriving DecidableEq, Repr

/-- WHATWG-style UTF-8 decoder, one byte per step.  On an invalid byte it
emits U+FFFD and, as a simplification of the WHATWG resynchronisation
rule, continues after that byte; its behaviour on valid sequences (all
this development relies on) matches the standard exactly. -/
def utf8DecodeSM : Utf8State → List Nat → List Char
  | .start, [] => []
  | .mid _ _ _ _, [] => [replChar]
  | .start, b :: bs =>
    if b < 0x80 then Char.ofNat b :: utf8DecodeSM .start bs
    else if 0xC2 ≤ b ∧ b ≤ 0xDF then utf8DecodeSM (.mid (b - 0xC0) 1 0x80 0xBF) bs
    else if b = 0xE0 then utf8DecodeSM (.mid 0 2 0xA0 0xBF) bs
    else if b = 0xED then utf8DecodeSM (.mid 0xD 2 0x80 0x9F) bs
    else if 0xE1 ≤ b ∧ b ≤ 0xEF then utf8DecodeSM (.mid (b - 0xE0) 2 0x80 0xBF) bs
    else if b = 0xF0 then utf8DecodeSM (.mid 0 3 0x90 0xBF) bs
    else if b = 0xF4 then utf8DecodeSM (.mid 4 3 0x80 0x8F) bs
    else if 0xF1 ≤ b ∧ b ≤ 0xF3 then utf8DecodeSM (.mid (b - 0xF0) 3 0x80 0xBF) bs
    else replChar :: utf8DecodeSM .start bs
  | .mid acc need lo hi, b :: bs =>
    if lo ≤ b ∧ b ≤ hi then
      if need ≤ 1 then Char.ofNat (acc * 0x40 + (b - 0x80)) :: utf8DecodeSM .start bs
      else utf8DecodeSM (.mid (acc * 0x40 + (b - 0x80)) (need - 1) 0x80 0xBF) bs
    else replChar :: utf8DecodeSM .start bs

def utf8Decode (l : List Nat) : List Char := utf8DecodeSM .start l


theorem char_valid_nat (c : Char) :
    c.toNat < 0xD800 ∨ (0xDFFF < c.toNat ∧ c.toNat < 0x110000) := c.valid

theorem utf8DecodeChar_cons (c : Char) (rest : List Nat) :
    utf8Decode (utf8EncodeChar c ++ rest) = c :: utf8Decode rest := by
  have hval := char_valid_nat c
  unfold utf8Decode
  by_cases h1 : c.toNat < 0x80
  · have henc : utf8EncodeChar c = [c.toNat] := by
      unfold utf8EncodeChar
      rw [if_pos h1]
    rw [henc]
    simp only [List.cons_append, List.nil_append]
    rw [utf8DecodeSM]
    rw [if_pos h1, Char.ofNat_toNat]
  · by_cases h2 : c.toNat < 0x800
    · have henc : utf8EncodeChar c = [0xC0 + c.toNat / 0x40, 0x80 + c.toNat % 0x40] := by
        unfold utf8EncodeChar
        rw [if_neg h1, if_pos h2]
      rw [henc]
      simp only [List.cons_append, List.nil_append]
      rw [utf8DecodeSM]
      rw [if_neg (by omega), if_pos (by omega)]
      rw [utf8DecodeSM]
      rw [if_pos (by omega), if_pos (by omega)]
      have harith : (0xC0 + c.toNat / 0x40 - 0xC0) * 0x40 + (0x80 + c.toNat % 0x40 - 0x80)
          = c.toNat := by omega
      rw [harith, Char.ofNat_toNat]
    · by_cases h3 : c.toNat < 0x10000
      · have henc : utf8EncodeChar c =
            [0xE0 + c.toNat / 0x1000, 0x80 + c.toNat / 0x40 % 0x40,
             0x80 + c.toNat % 0x40] := by
          unfold utf8EncodeChar
          rw [if_neg h1, if_neg (by omega), if_pos h3]
        rw [henc]
        simp only [List.cons_append, List.nil_append]
        have harith : ∀ a : Nat, a = c.toNat / 0x1000 →
            (a * 0x40 + (0x80 + c.toNat / 0x40 % 0x40 - 0x80)) * 0x40 +
              (0x80 + c.toNat % 0x40 - 0x80) = c.toNat := by
          intro a ha
          omega
        by_cases he0 : c.toNat < 0x1000
        · rw [utf8DecodeSM]
          rw [if_neg (by omega), if_neg (by omega), if_pos (by omega)]
          rw [utf8DecodeSM]
          rw [if_pos (by omega), if_neg (by omega)]
          rw [utf8DecodeSM]
          rw [if_pos (by omega), if_pos (by omega)]
          rw [harith 0 (by omega), Char.ofNat_toNat]
        · by_cases hed : 0xD000 ≤ c.toNat ∧ c.toNat < 0xE000
          · rw [utf8DecodeSM]
            rw [if_neg (by omega), if_neg (by omega), if_neg (by omega),
              if_pos (by omega)]
            rw [utf8DecodeSM]
            rw [if_pos (by omega), if_neg (by omega)]
            rw [utf8DecodeSM]
            rw [if_pos (by omega), if_pos (by omega)]
            rw [harith 0xD (by omega), Char.ofNat_toNat]
          · rw [utf8DecodeSM]
            rw [if_neg (by omega), if_neg (by omega), if_neg (by omega),
              if_neg (by omega), if_pos (by omega)]
            rw [utf8DecodeSM]
            rw [if_pos (by omega), if_neg (by omega)]
            rw [utf8DecodeSM]
            rw [if_pos (by omega), if_pos (by omega)]
            have hx : 0xE0 + c.toNat / 0x1000 - 0xE0 = c.toNat / 0x1000 := by omega
            rw [hx, harith (c.toNat / 0x1000) rfl, Char.ofNat_toNat]
      · have henc : utf8EncodeChar c =
            [0xF0 + c.toNat / 0x40000, 0x80 + c.toNat / 0x1000 % 0x40,
             0x80 + c.toNat / 0x40 % 0x40, 0x80 + c.toNat % 0x40] := by
          unfold utf8EncodeChar
          rw [if_neg h1, if_neg (by omega), if_neg (by omega)]
        rw [henc]
        simp only [List.cons_append, List.nil_append]
        have harith : ∀ a : Nat, a = c.toNat / 0x40000 →
            ((a * 0x40 + (0x80 + c.toNat / 0x1000 % 0x40 - 0x80)) * 0x40 +
                (0x80 + c.toNat / 0x40 % 0x40 - 0x80)) * 0x40 +
              (0x80 + c.toNat % 0x40 - 0x80) = c.toNat := by
          intro a ha
          omega
        by_cases hf0 : c.toNat < 0x40000
        · rw [utf8DecodeSM]
          rw [if_neg (by omega), if_neg (by omega)]
          rw [if_neg (by omega), if_neg (by omega)]
          rw [if_neg (by omega), if_pos (by omega)]
          rw [utf8DecodeSM]
          rw [if_pos (by omega), if_neg (by omega)]
          rw [utf8DecodeSM]
          rw [if_pos (by omega), if_neg (by omega)]
          rw [utf8DecodeSM]
          rw [if_pos (by omega), if_pos (by omega)]
          rw [harith 0 (by omega), Char.ofNat_toNat]
        · by_cases hf4 : 0x100000 ≤ c.toNat
          · rw [utf8DecodeSM]
            rw [if_neg (by omega), if_neg (by omega)]
            rw [if_neg (by omega), if_neg (by omega)]
            rw [if_neg (by omega), if_neg (by omega), if_pos (by omega)]
            rw [utf8DecodeSM]
            rw [if_pos (by omega), if_neg (by omega)]
            rw [utf8DecodeSM]
            rw [if_pos (by omega), if_neg (by omega)]
            rw [utf8DecodeSM]
            rw [if_pos (by omega), if_pos (by omega)]
            rw [harith 4 (by omega), Char.ofNat_toNat]
          · rw [utf8DecodeSM]
            rw [if_neg (by omega), if_neg (by omega)]
            rw [if_neg (by omega), if_neg (by omega)]
            rw [if_neg (by omega), if_neg (by omega)]
            rw [if_neg (by omega), if_pos (by omega)]
            rw [utf8DecodeSM]
            rw [if_pos (by omega), if_neg (by omega)]
            rw [utf8DecodeSM]
            rw [if_pos (by omega), if_neg (by omega)]
            rw [utf8DecodeSM]
            rw [if_pos (by omega), if_pos (by omega)]
            have hx : 0xF0 + c.toNat / 0x40000 - 0xF0 = c.toNat / 0x40000 := by omega
            rw [hx, harith (c.toNat / 0x40000) rfl, Char.ofNat_toNat]

theorem utf8_roundtrip (cs : List Char) : utf8Decode (utf8Encode cs) = cs := by
  induction cs with
  | nil => rfl
  | cons c cs ih =>
    simp only [utf8Encode]
    rw [utf8DecodeChar_cons, ih]

theorem utf8Encode_lt_256 (cs : List Char) : ∀ b ∈ utf8Encode cs, b < 256 := by
  induction cs with
  | nil => intro b hb; simp [utf8Encode] at hb
  | cons c cs ih =>
    intro b hb
    simp only [utf8Encode, List.mem_append] at hb
    rcases hb with hb | hb
    · have hval := char_valid_nat c
      unfold utf8EncodeChar at hb
      split at hb
      · simp at hb; omega
      · split at hb
        · simp at hb
          rcases hb with hb | hb <;> omega
        · split at hb
          · simp at hb
            rcases hb with hb | hb | hb <;> omega
          · simp at hb
            rcases hb with hb | hb | hb | hb <;> omega
    · exact ih b hb

theorem utf8Encode_ascii (cs : List Char) (h : ∀ c ∈ cs, c.toNat < 0x80) :
    utf8Encode cs = cs.map Char.toNat := by
  induction cs with
  | nil => rfl
  | cons c cs ih =>
    have hc : c.toNat < 0x80 := h c (by simp)
    simp only [utf8Encode, List.map_cons]
    rw [ih (fun x hx => h x (by simp [hx]))]
    unfold utf8EncodeChar
    rw [if_pos hc]
    rfl

theorem toNat_ofNat_small (b : Nat) (h : b < 0xD800) : (Char.ofNat b).toNat = b := by
  unfold Char.ofNat
  rw [dif_pos (Or.inl h)]
  rfl

/-! ## application/x-www-form-urlencoded codec

Model of the platform `URLSearchParams` string constructor and its
`toString` serializer, following the WHATWG urlencoded parser and
serializer at the byte level.  One simplification: on a malformed
percent-escape the model emits the raw bytes and continues after them,
where the platform would re-scan the two bytes following the `%`; the
two agree on every well-formed escape and on every serializer output.
-/

def hexDigitChars : List Char :=
  ['0', '1', '2', '3', '4', '5', '6', '7', '8', '9', 'A', 'B', 'C', 'D', 'E', 'F']

def hexDigitChar (n : Nat) : Char := hexDigitChars.getD n '0'

/-- Value of an ASCII hex-digit byte (case-insensitive), if it is one. -/
def hexValByte (b : Nat) : Option Nat :=
  if 0x30 ≤ b ∧ b ≤ 0x39 then some (b - 0x30)
  else if 0x41 ≤ b ∧ b ≤ 0x46 then some (b - 0x37)
  else if 0x61 ≤ b ∧ b ≤ 0x66 then some (b - 0x57)
  else none

/-- Bytes serialized without escaping by the urlencoded serializer:
ASCII alphanumerics and `*`, `-`, `.`, `_`. -/
def isFormSafe (b : Nat) : Prop :=
  b = 0x2A ∨ b = 0x2D ∨ b = 0x2E ∨ (0x30 ≤ b ∧ b ≤ 0x39) ∨
    (0x41 ≤ b ∧ b ≤ 0x5A) ∨ b = 0x5F ∨ (0x61 ≤ b ∧ b ≤ 0x7A)

instance (b : Nat) : Decidable (isFormSafe b) := by
  unfold isFormSafe
  infer_instance

def encByte (b : Nat) : List Char :=
  if b = 0x20 then ['+']
  else if isFormSafe b then [Char.ofNat b]
  else ['%', hexDigitChar (b / 16), hexDigitChar (b % 16)]

def formEncodeBytes : List Nat → List Char
  | [] => []
  | b :: bs => encByte b ++ formEncodeBytes bs

/-- Percent-decoder state: at a boundary, just after a `%`, or after a
`%` and one hex digit (remembering its value and the original byte). -/
inductive PctState
  | n0
  | p1
  | p2 (x orig : Nat)
deriving DecidableEq, Repr

def pctDecodeSM : PctState → List Nat → List Nat
  | .n0, [] => []
  | .p1, [] => [0x25]
  | .p2 _ o, [] => [0x25, o]
  | .n0, b :: bs => if b = 0x25 then pctDecodeSM .p1 bs else b :: pctDecodeSM .n0 bs
  | .p1, b :: bs =>
    match hexValByte b with
    | some x => pctDecodeSM (.p2 x b) bs
    | none => 0x25 :: b :: pctDecodeSM .n0 bs
  | .p2 x o, b :: bs =>
    match hexValByte b with
    | some y => (x * 16 + y) :: pctDecodeSM .n0 bs
    | none => 0x25 :: o :: b :: pctDecodeSM .n0 bs

def plusToSpace (bs : List Nat) : List Nat :=
  bs.map (fun b => if b = 0x2B then 0x20 else b)

/-- Decode one name or value token: replace `+` with space, percent-decode
the bytes, then UTF-8 decode (all per the WHATWG urlencoded parser). -/
def decodeComponent (cs : List Char) : String :=
  String.mk (utf8Decode (pctDecodeSM .n0 (plusToSpace (utf8Encode cs))))

def splitAmp : List Char → List (List Char)
  | [] => [[]]
  | c :: rest =>
    if c = '&' then [] :: splitAmp rest
    else
      match splitAmp rest with
      | [] => [[c]]
      | p :: ps => (c :: p) :: ps

def splitFirstEq : List Char → List Char × List Char
  | [] => ([], [])
  | c :: rest =>
    if c = '=' then ([], rest)
    else (c :: (splitFirstEq rest).1, (splitFirstEq rest).2)

def parsePiece (p : List Char) : String × String :=
  (decodeComponent (splitFirstEq p).1, decodeComponent (splitFirstEq p).2)

def stripQmark : List Char → List Char
  | [] => []
  | c :: rest => if c = '?' then rest else c :: rest

/-- Model of `new URLSearchParams(s)`: drop one leading `?`, split on `&`,
drop empty pieces, split each piece at its first `=`, decode both sides. -/
def parseQS (s : String) : List (String × String) :=
  ((splitAmp (stripQmark s.data)).filter (fun p => !p.isEmpty)).map parsePiece

def serializePairChars (p : String × String) : List Char :=
  formEncodeBytes (utf8Encode p.1.data) ++ '=' :: formEncodeBytes (utf8Encode p.2.data)

def joinAmp : List (List Char) → List Char
  | [] => []
  | [x] => x
  | x :: xs => x ++ '&' :: joinAmp xs

/-- Model of `URLSearchParams.toString()`. -/
def serializeQS (l : List (String × String)) : String :=
  String.mk (joinAmp (l.map serializePairChars))

/-- Model of `URLSearchParams.has(name)`. -/
def hasParam (l : List (String × String)) (k : String) : Bool :=
  l.any (fun p => p.1 == k)

theorem string_data_mk (cs : List Char) : (String.mk cs).data = cs := rfl

theorem char_ne_of_toNat_ne {c d : Char} (h : c.toNat ≠ d.toNat) : c ≠ d :=
  fun he => h (by rw [he])

theorem hexDigitChar_class : ∀ n < 16,
    (hexDigitChar n).toNat < 0x80 ∧ (hexDigitChar n).toNat ≠ 0x26 ∧
    (hexDigitChar n).toNat ≠ 0x3D ∧ (hexDigitChar n).toNat ≠ 0x3F ∧
    (hexDigitChar n).toNat ≠ 0x2B ∧
    hexValByte (hexDigitChar n).toNat = some n := by decide

theorem encByte_chars (b : Nat) (hb : b < 256) :
    ∀ c ∈ encByte b,
      c.toNat < 0x80 ∧ c.toNat ≠ 0x26 ∧ c.toNat ≠ 0x3D ∧ c.toNat ≠ 0x3F := by
  intro c hc
  unfold encByte at hc
  by_cases h20 : b = 0x20
  · rw [if_pos h20] at hc
    simp only [List.mem_singleton] at hc
    subst hc
    decide
  · rw [if_neg h20] at hc
    by_cases hsafe : isFormSafe b
    · rw [if_pos hsafe] at hc
      simp only [List.mem_singleton] at hc
      subst hc
      rw [toNat_ofNat_small b (by omega)]
      unfold isFormSafe at hsafe
      omega
    · rw [if_neg hsafe] at hc
      simp only [List.mem_cons, List.mem_singleton] at hc
      rcases hc with hc | hc | hc
      · subst hc
        decide
      · subst hc
        have := hexDigitChar_class (b / 16) (by omega)
        exact ⟨this.1, this.2.1, this.2.2.1, this.2.2.2.1⟩
      · rcases hc with hc | hc
        · subst hc
          have := hexDigitChar_class (b % 16) (by omega)
          exact ⟨this.1, this.2.1, this.2.2.1, this.2.2.2.1⟩
        · simp at hc

theorem formEncodeBytes_chars (bs : List Nat) (h : ∀ b ∈ bs, b < 256) :
    ∀ c ∈ formEncodeBytes bs,
      c.toNat < 0x80 ∧ c.toNat ≠ 0x26 ∧ c.toNat ≠ 0x3D ∧ c.toNat ≠ 0x3F := by
  induction bs with
  | nil => intro c hc; simp [formEncodeBytes] at hc
  | cons b bs ih =>
    intro c hc
    simp only [formEncodeBytes, List.mem_append] at hc
    rcases hc with hc | hc
    · exact encByte_chars b (h b (by simp)) c hc
    · exact ih (fun x hx => h x (by simp [hx])) c hc

theorem pct_step (b : Nat) (hb : b < 256) (t : List Nat) :
    pctDecodeSM .n0 (plusToSpace ((encByte b).map Char.toNat) ++ t)
      = b :: pctDecodeSM .n0 t := by
  by_cases h20 : b = 0x20
  · subst h20
    have hx : plusToSpace ((encByte 0x20).map Char.toNat) = [0x20] := by decide
    rw [hx, List.cons_append, List.nil_append]
    rw [pctDecodeSM]
    rw [if_neg (by omega)]
  · by_cases hsafe : isFormSafe b
    · have henc : encByte b = [Char.ofNat b] := by
        unfold encByte
        rw [if_neg h20, if_pos hsafe]
      have hbne : b ≠ 0x2B ∧ b ≠ 0x25 := by
        unfold isFormSafe at hsafe
        omega
      rw [henc]
      simp only [List.map_cons, List.map_nil]
      rw [toNat_ofNat_small b (by omega)]
      unfold plusToSpace
      simp only [List.map_cons, List.map_nil]
      rw [if_neg hbne.1, List.cons_append, List.nil_append]
      rw [pctDecodeSM]
      rw [if_neg hbne.2]
    · have henc : encByte b = ['%', hexDigitChar (b / 16), hexDigitChar (b % 16)] := by
        unfold encByte
        rw [if_neg h20, if_neg hsafe]
      have hc1 := hexDigitChar_class (b / 16) (by omega)
      have hc2 := hexDigitChar_class (b % 16) (by omega)
      rw [henc]
      simp only [List.map_cons, List.map_nil]
      have hpct : Char.toNat '%' = 0x25 := by decide
      rw [hpct]
      unfold plusToSpace
      simp only [List.map_cons, List.map_nil]
      rw [if_neg (by omega), if_neg hc1.2.2.2.2.1, if_neg hc2.2.2.2.2.1]
      simp only [List.cons_append, List.nil_append]
      rw [pctDecodeSM]
      rw [if_pos rfl]
      rw [pctDecodeSM]
      rw [hc1.2.2.2.2.2]
      simp only []
      rw [pctDecodeSM]
      rw [hc2.2.2.2.2.2]
      simp only []
      have harith : b / 16 * 16 + b % 16 = b := by omega
      rw [harith]

theorem pct_roundtrip (bs : List Nat) (h : ∀ b ∈ bs, b < 256) :
    pctDecodeSM .n0 (plusToSpace ((formEncodeBytes bs).map Char.toNat)) = bs := by
  induction bs with
  | nil => rfl
  | cons b bs ih =>
    have hb : b < 256 := h b (by simp)
    simp only [formEncodeBytes, List.map_append]
    unfold plusToSpace
    rw [List.map_append]
    have := pct_step b hb (List.map (fun x => if x = 0x2B then 0x20 else x)
      ((formEncodeBytes bs).map Char.toNat))
    unfold plusToSpace at this
    rw [this]
    have ih2 := ih (fun x hx => h x (by simp [hx]))
    unfold plusToSpace at ih2
    rw [ih2]

theorem decodeComponent_encode (s : String) :
    decodeComponent (formEncodeBytes (utf8Encode s.data)) = s := by
  unfold decodeComponent
  rw [utf8Encode_ascii _ (fun c hc =>
    (formEncodeBytes_chars _ (utf8Encode_lt_256 _) c hc).1)]
  rw [pct_roundtrip _ (utf8Encode_lt_256 _)]
  rw [utf8_roundtrip]

theorem splitFirstEq_append (xs rest : List Char) (h : ∀ c ∈ xs, c ≠ '=') :
    splitFirstEq (xs ++ '=' :: rest) = (xs, rest) := by
  induction xs with
  | nil =>
    rw [List.nil_append, splitFirstEq, if_pos rfl]
  | cons c xs ih =>
    have hc : c ≠ '=' := h c (by simp)
    rw [List.cons_append, splitFirstEq, if_neg hc,
      ih (fun x hx => h x (by simp [hx]))]

theorem splitAmp_append (xs l : List Char) (p : List Char) (ps : List (List Char))
    (hfree : ∀ c ∈ xs, c ≠ '&') (hl : splitAmp l = p :: ps) :
    splitAmp (xs ++ l) = (xs ++ p) :: ps := by
  induction xs with
  | nil => simpa using hl
  | cons c xs ih =>
    have hc : c ≠ '&' := hfree c (by simp)
    rw [List.cons_append, splitAmp, if_neg hc,
      ih (fun x hx => hfree x (by simp [hx]))]
    rfl

theorem joinAmp_cons_cons (x y : List Char) (rest : List (List Char)) :
    joinAmp (x :: y :: rest) = x ++ '&' :: joinAmp (y :: rest) := rfl

theorem splitAmp_join (pieces : List (List Char)) :
    pieces ≠ [] → (∀ piece ∈ pieces, ∀ c ∈ piece, c ≠ '&') →
    splitAmp (joinAmp pieces) = pieces := by
  induction pieces with
  | nil => intro h _; exact absurd rfl h
  | cons x xs ih =>
    intro _ hfree
    cases xs with
    | nil =>
      rw [joinAmp]
      have h1 := splitAmp_append x [] [] [] (fun c hc => hfree x (by simp) c hc) rfl
      simpa using h1
    | cons y rest =>
      rw [joinAmp_cons_cons]
      have hsub := ih (List.cons_ne_nil y rest) (fun q hq c hc => hfree q (by simp [hq]) c hc)
      have hsplit : splitAmp ('&' :: joinAmp (y :: rest)) = [] :: y :: rest := by
        rw [splitAmp, if_pos rfl, hsub]
      have h2 := splitAmp_append x ('&' :: joinAmp (y :: rest)) [] (y :: rest)
        (fun c hc => hfree x (by simp) c hc) hsplit
      simpa using h2

theorem mem_joinAmp (pieces : List (List Char)) (c : Char) (hc : c ∈ joinAmp pieces) :
    c = '&' ∨ ∃ p ∈ pieces, c ∈ p := by
  induction pieces with
  | nil =>
    rw [joinAmp] at hc
    simp at hc
  | cons x xs ih =>
    cases xs with
    | nil =>
      rw [joinAmp] at hc
      exact Or.inr ⟨x, by simp, hc⟩
    | cons y rest =>
      rw [joinAmp_cons_cons] at hc
      rw [List.mem_append] at hc
      rcases hc with hc | hc
      · exact Or.inr ⟨x, by simp, hc⟩
      · rcases List.mem_cons.mp hc with hc | hc
        · exact Or.inl hc
        · rcases ih hc with h | ⟨p, hp, hcp⟩
          · exact Or.inl h
          · exact Or.inr ⟨p, List.mem_cons_of_mem x hp, hcp⟩

theorem serializePair_chars (p : String × String) :
    ∀ c ∈ serializePairChars p, c.toNat < 0x80 ∧ c.toNat ≠ 0x26 ∧ c.toNat ≠ 0x3F := by
  intro c hc
  unfold serializePairChars at hc
  rw [List.mem_append] at hc
  rcases hc with hc | hc
  · have := formEncodeBytes_chars _ (utf8Encode_lt_256 _) c hc
    exact ⟨this.1, this.2.1, this.2.2.2⟩
  · rcases List.mem_cons.mp hc with hc | hc
    · subst hc
      decide
    · have := formEncodeBytes_chars _ (utf8Encode_lt_256 _) c hc
      exact ⟨this.1, this.2.1, this.2.2.2⟩

theorem serializePair_ne_nil (p : String × String) : serializePairChars p ≠ [] := by
  unfold serializePairChars
  intro h
  simp at h

theorem stripQmark_id (l : List Char) (h : '?' ∉ l) : stripQmark l = l := by
  cases l with
  | nil => rfl
  | cons c rest =>
    rw [stripQmark]
    rw [if_neg (fun he => h (by subst he; exact List.mem_cons_self _ _))]

theorem parsePiece_serialize (p : String × String) :
    parsePiece (serializePairChars p) = p := by
  unfold serializePairChars parsePiece
  have hfree : ∀ c ∈ formEncodeBytes (utf8Encode p.1.data), c ≠ '=' := by
    intro c hc
    have := (formEncodeBytes_chars _ (utf8Encode_lt_256 _) c hc).2.2.1
    exact char_ne_of_toNat_ne (by
      intro he
      rw [show ('=').toNat = 0x3D by decide] at he
      exact this he)
  rw [splitFirstEq_append _ _ hfree]
  rw [decodeComponent_encode, decodeComponent_encode]

theorem parseQS_serializeQS (l : List (String × String)) :
    parseQS (serializeQS l) = l := by
  cases l with
  | nil => rfl
  | cons p ps =>
    unfold parseQS serializeQS
    rw [string_data_mk]
    have hclass := fun (q : String × String) => serializePair_chars q
    have hq : '?' ∉ joinAmp ((p :: ps).map serializePairChars) := by
      intro hm
      rcases mem_joinAmp _ _ hm with h | ⟨piece, hpiece, hcp⟩
      · exact absurd h (by decide)
      · rcases List.mem_map.mp hpiece with ⟨q, _, hqe⟩
        subst hqe
        have := (hclass q '?' hcp).2.2
        exact this (by decide)
    rw [stripQmark_id _ hq]
    rw [splitAmp_join ((p :: ps).map serializePairChars) (by simp)
      (by
        intro piece hpiece c hc
        rcases List.mem_map.mp hpiece with ⟨q, _, hqe⟩
        subst hqe
        have := (hclass q c hc).2.1
        exact char_ne_of_toNat_ne (by
          intro he
          rw [show ('&').toNat = 0x26 by decide] at he
          exact this he))]
    rw [List.filter_eq_self.mpr (by
      intro piece hpiece
      rcases List.mem_map.mp hpiece with ⟨q, _, hqe⟩
      subst hqe
      simp [serializePair_ne_nil q, List.isEmpty_iff])]
    rw [List.map_map]
    have hcongr : (p :: ps).map (parsePiece ∘ serializePairChars) = (p :: ps).map id := by
      apply List.map_congr_left
      intro a _
      exact parsePiece_serialize a
    rw [hcongr, List.map_id]

theorem serializeQS_nil : serializeQS [] = "" := rfl

theorem serializeQS_ne_empty (p : String × String) (ps : List (String × String)) :
    serializeQS (p :: ps) ≠ "" := by
  unfold serializeQS
  intro h
  have hd : (String.mk (joinAmp ((p :: ps).map serializePairChars))).data = ("" : String).data := by
    rw [h]
  rw [string_data_mk] at hd
  have hne : joinAmp ((p :: ps).map serializePairChars) ≠ [] := by
    cases hps : ps.map serializePairChars with
    | nil =>
      simp only [List.map_cons, hps, joinAmp]
      exact serializePair_ne_nil p
    | cons y rest =>
      simp only [List.map_cons, hps, joinAmp_cons_cons]
      intro hx
      rcases List.append_eq_nil.mp hx with ⟨_, h2⟩
      simp at h2
  exact hne hd

/-! ## Base64 and the publishable-key decoder

Models of the platform `atob` (WHATWG forgiving-base64 decode, with the
decoded binary string represented as its list of byte values) and of
`client.ts`'s `normalizeBase64` / `decodePublishableKey`.  JS string
`.length` and `.slice` count UTF-16 units; the model counts characters,
which agrees on all strings without astral-plane characters (base64 text
and the key literal are ASCII).
-/

def b64Alphabet : List Char :=
  ['A', 'B', 'C', 'D', 'E', 'F', 'G', 'H', 'I', 'J', 'K', 'L', 'M',
   'N', 'O', 'P', 'Q', 'R', 'S', 'T', 'U', 'V', 'W', 'X', 'Y', 'Z',
   'a', 'b', 'c', 'd', 'e', 'f', 'g', 'h', 'i', 'j', 'k', 'l', 'm',
   'n', 'o', 'p', 'q', 'r', 's', 't', 'u', 'v', 'w', 'x', 'y', 'z',
   '0', '1', '2', '3', '4', '5', '6', '7', '8', '9', '+', '/']

def b64Char (n : Nat) : Char := b64Alphabet.getD n 'A'

def b64IndexAux : Nat → List Char → Char → Option Nat
  | _, [], _ => none
  | i, a :: as, c => if a = c then some i else b64IndexAux (i + 1) as c

def b64Inv (c : Char) : Option Nat := b64IndexAux 0 b64Alphabet c

/-- Base64 encoding of a byte list, without padding characters. -/
def b64Chunks : List Nat → List Char
  | [] => []
  | [b1] => [b64Char (b1 / 4), b64Char (b1 % 4 * 16)]
  | [b1, b2] => [b64Char (b1 / 4), b64Char (b1 % 4 * 16 + b2 / 16), b64Char (b2 % 16 * 4)]
  | b1 :: b2 :: b3 :: rest =>
    b64Char (b1 / 4) :: b64Char (b1 % 4 * 16 + b2 / 16) ::
      b64Char (b2 % 16 * 4 + b3 / 64) :: b64Char (b3 % 64) :: b64Chunks rest

def b64PadLen (n : Nat) : Nat := if n % 3 = 0 then 0 else 3 - n % 3

/-- Standard (padded) base64 encoding of a byte list, as a string. -/
def b64EncodeBytes (bs : List Nat) : String :=
  String.mk (b64Chunks bs ++ List.replicate (b64PadLen bs.length) '=')

def b64DecodeChunks : List Char → Option (List Nat)
  | [] => some []
  | [c1, c2] =>
    match b64Inv c1, b64Inv c2 with
    | some v1, some v2 => some [v1 * 4 + v2 / 16]
    | _, _ => none
  | [c1, c2, c3] =>
    match b64Inv c1, b64Inv c2, b64Inv c3 with
    | some v1, some v2, some v3 => some [v1 * 4 + v2 / 16, v2 % 16 * 16 + v3 / 4]
    | _, _, _ => none
  | c1 :: c2 :: c3 :: c4 :: rest =>
    match b64Inv c1, b64Inv c2, b64Inv c3, b64Inv c4, b64DecodeChunks rest with
    | some v1, some v2, some v3, some v4, some bs =>
      some ((v1 * 4 + v2 / 16) :: (v2 % 16 * 16 + v3 / 4) :: (v3 % 4 * 64 + v4) :: bs)
    | _, _, _, _, _ => none
  | [_] => none

/-- ASCII whitespace stripped by forgiving-base64. -/
def isB64Ws (c : Char) : Bool :=
  c == ' ' || c == '\t' || c == '\n' || c == '\x0c' || c == '\r'

/-- Remove up to two trailing `=` characters. -/
def dropTrailingEq2 (cs : List Char) : List Char :=
  match cs.reverse with
  | c1 :: c2 :: rest =>
    if c1 = '=' then (if c2 = '=' then rest.reverse else (c2 :: rest).reverse) else cs
  | [c1] => if c1 = '=' then [] else cs
  | [] => cs

/-- Model of `atob`: WHATWG forgiving-base64 decode to a byte list. -/
def atob? (s : String) : Option (List Nat) :=
  let cs := s.data.filter (fun c => !isB64Ws c)
  let cs := if cs.length % 4 = 0 then dropTrailingEq2 cs else cs
  if cs.length % 4 = 1 then none
  else b64DecodeChunks cs

/-- `atob` as JS sees it: the decoded bytes as a Latin-1 string. -/
def atobStr? (s : String) : Option String :=
  (atob? s).map (fun bs => String.mk (bs.map Char.ofNat))

def normB64Char (c : Char) : Char :=
  if c = '-' then '+' else if c = '_' then '/' else if c = '|' then '/' else c

/-- `normalizeBase64` from `client.ts`: substitute URL-safe and pipe
variant characters, then right-pad with `=` to a multiple of 4. -/
def normalizeBase64 (value : String) : String :=
  let normalized := value.data.map normB64Char
  if normalized.length % 4 = 0 then String.mk normalized
  else String.mk (normalized ++ List.replicate (4 - normalized.length % 4) '=')

/-- JS `decoded.split("::")`: leftmost, non-overlapping split. -/
def splitDC : List Char → List (List Char)
  | [] => [[]]
  | ':' :: ':' :: rest => [] :: splitDC rest
  | c :: rest =>
    match splitDC rest with
    | [] => [[c]]
    | p :: ps => (c :: p) :: ps

inductive PKError
  | invalidKey
  | invalidEncoding
  | invalidPayload
deriving DecidableEq, Repr

structure DecodedPublishableKey where
  encryptedKey : String
  environment : String
deriving DecidableEq, Repr

def pkHead : List Char := "sh_publishable_".data

/-- The `decoded.split("::")` / shape-check step of `decodePublishableKey`. -/
def decodePayload (decoded : String) : Except PKError DecodedPublishableKey :=
  match splitDC decoded.data with
  | [p1, p2] =>
    if p1 ≠ [] ∧ p2 ≠ [] then .ok ⟨String.mk p1, String.mk p2⟩
    else .error .invalidPayload
  | _ => .error .invalidPayload

/-- `decodePublishableKey` from `client.ts`. -/
def decodePublishableKey (publishableKey : String) : Except PKError DecodedPublishableKey :=
  if pkHead.isPrefixOf publishableKey.data then
    match atobStr? (normalizeBase64 (String.mk (publishableKey.data.drop pkHead.length))) with
    | none => .error .invalidEncoding
    | some decoded => decodePayload decoded
  else .error .invalidKey

/-- Latin-1 code units of a JS string (the form `btoa` consumes). -/
def strBytes (s : String) : List Nat := s.data.map Char.toNat

/-- A well-formed publishable key for payload `X::env`. -/
def mkPublishableKey (x env : String) : String :=
  String.mk (pkHead ++ (b64EncodeBytes (strBytes (x ++ "::" ++ env))).data)

def urlSafeChar (c : Char) : Char := if c = '+' then '-' else if c = '/' then '_' else c

def pipeChar (c : Char) : Char := if c = '/' then '|' else c

def toUrlSafe (s : String) : String := String.mk (s.data.map urlSafeChar)

def toPipe (s : String) : String := String.mk (s.data.map pipeChar)

def dropPadding (s : String) : String :=
  String.mk ((s.data.reverse.dropWhile (fun c => c == '=')).reverse)

theorem b64Char_facts : ∀ n < 64,
    b64Inv (b64Char n) = some n ∧ isB64Ws (b64Char n) = false ∧
    b64Char n ≠ '=' ∧ normB64Char (b64Char n) = b64Char n := by decide

theorem b64Chunks_mem (bs : List Nat) (h : ∀ b ∈ bs, b < 256) :
    ∀ c ∈ b64Chunks bs, ∃ n, n < 64 ∧ c = b64Char n := by
  induction bs using b64Chunks.induct with
  | case1 =>
    intro c hc
    simp [b64Chunks] at hc
  | case2 b1 =>
    intro c hc
    have hb1 : b1 < 256 := h b1 (by simp)
    rw [b64Chunks] at hc
    simp only [List.mem_cons, List.not_mem_nil, or_false] at hc
    rcases hc with hc | hc
    · exact ⟨b1 / 4, by omega, hc⟩
    · exact ⟨b1 % 4 * 16, by omega, hc⟩
  | case3 b1 b2 =>
    intro c hc
    have hb1 : b1 < 256 := h b1 (by simp)
    have hb2 : b2 < 256 := h b2 (by simp)
    rw [b64Chunks] at hc
    simp only [List.mem_cons, List.not_mem_nil, or_false] at hc
    rcases hc with hc | hc | hc
    · exact ⟨b1 / 4, by omega, hc⟩
    · exact ⟨b1 % 4 * 16 + b2 / 16, by omega, hc⟩
    · exact ⟨b2 % 16 * 4, by omega, hc⟩
  | case4 b1 b2 b3 rest ih =>
    intro c hc
    have hb1 : b1 < 256 := h b1 (by simp)
    have hb2 : b2 < 256 := h b2 (by simp)
    have hb3 : b3 < 256 := h b3 (by simp)
    rw [b64Chunks] at hc
    simp only [List.mem_cons] at hc
    rcases hc with hc | hc | hc | hc | hc
    · exact ⟨b1 / 4, by omega, hc⟩
    · exact ⟨b1 % 4 * 16 + b2 / 16, by omega, hc⟩
    · exact ⟨b2 % 16 * 4 + b3 / 64, by omega, hc⟩
    · exact ⟨b3 % 64, by omega, hc⟩
    · exact ih (fun b hb => h b (by simp [hb])) c hc

theorem b64Chunks_len (bs : List Nat) :
    (b64Chunks bs).length =
      bs.length / 3 * 4 + (if bs.length % 3 = 0 then 0 else bs.length % 3 + 1) := by
  induction bs using b64Chunks.induct with
  | case1 => rfl
  | case2 b1 =>
    rw [b64Chunks]
    simp
  | case3 b1 b2 =>
    rw [b64Chunks]
    simp
  | case4 b1 b2 b3 rest ih =>
    rw [b64Chunks]
    simp only [List.length_cons]
    rw [ih]
    have h3 : (rest.length + 3) / 3 = rest.length / 3 + 1 := by omega
    have h3b : (rest.length + 3) % 3 = rest.length % 3 := by omega
    rw [show rest.length + 1 + 1 + 1 = rest.length + 3 by omega, h3, h3b]
    split <;> omega

theorem b64DecodeChunks_encode (bs : List Nat) (h : ∀ b ∈ bs, b < 256) :
    b64DecodeChunks (b64Chunks bs) = some bs := by
  induction bs using b64Chunks.induct with
  | case1 => rfl
  | case2 b1 =>
    have hb1 : b1 < 256 := h b1 (by simp)
    rw [b64Chunks, b64DecodeChunks]
    rw [(b64Char_facts (b1 / 4) (by omega)).1, (b64Char_facts (b1 % 4 * 16) (by omega)).1]
    simp only []
    have : b1 / 4 * 4 + b1 % 4 * 16 / 16 = b1 := by omega
    rw [this]
  | case3 b1 b2 =>
    have hb1 : b1 < 256 := h b1 (by simp)
    have hb2 : b2 < 256 := h b2 (by simp)
    rw [b64Chunks, b64DecodeChunks]
    rw [(b64Char_facts (b1 / 4) (by omega)).1,
      (b64Char_facts (b1 % 4 * 16 + b2 / 16) (by omega)).1,
      (b64Char_facts (b2 % 16 * 4) (by omega)).1]
    simp only []
    have e1 : b1 / 4 * 4 + (b1 % 4 * 16 + b2 / 16) / 16 = b1 := by omega
    have e2 : (b1 % 4 * 16 + b2 / 16) % 16 * 16 + b2 % 16 * 4 / 4 = b2 := by omega
    rw [e1, e2]
  | case4 b1 b2 b3 rest ih =>
    have hb1 : b1 < 256 := h b1 (by simp)
    have hb2 : b2 < 256 := h b2 (by simp)
    have hb3 : b3 < 256 := h b3 (by simp)
    rw [b64Chunks, b64DecodeChunks]
    rw [(b64Char_facts (b1 / 4) (by omega)).1,
      (b64Char_facts (b1 % 4 * 16 + b2 / 16) (by omega)).1,
      (b64Char_facts (b2 % 16 * 4 + b3 / 64) (by omega)).1,
      (b64Char_facts (b3 % 64) (by omega)).1,
      ih (fun b hb => h b (by simp [hb]))]
    simp only []
    have e1 : b1 / 4 * 4 + (b1 % 4 * 16 + b2 / 16) / 16 = b1 := by omega
    have e2 : (b1 % 4 * 16 + b2 / 16) % 16 * 16 + (b2 % 16 * 4 + b3 / 64) / 4 = b2 := by
      omega
    have e3 : (b2 % 16 * 4 + b3 / 64) % 4 * 64 + b3 % 64 = b3 := by omega
    rw [e1, e2, e3]

theorem dropTrailingEq2_no_eq (cs : List Char) (h : ('=' : Char) ∉ cs) :
    dropTrailingEq2 cs = cs := by
  unfold dropTrailingEq2
  rcases hr : cs.reverse with _ | ⟨c1, t⟩
  · rfl
  · have hc1 : c1 ≠ '=' := by
      intro he
      exact h (by rw [← List.mem_reverse, hr, he]; simp)
    cases t with
    | nil =>
      simp only []
      rw [if_neg hc1]
    | cons c2 t2 =>
      simp only []
      rw [if_neg hc1]

theorem dropTrailingEq2_one (cs : List Char) (h : ('=' : Char) ∉ cs) :
    dropTrailingEq2 (cs ++ ['=']) = cs := by
  unfold dropTrailingEq2
  have hrev : (cs ++ ['=']).reverse = '=' :: cs.reverse := by simp
  rw [hrev]
  rcases hr : cs.reverse with _ | ⟨c2, t⟩
  · simp only [if_true]
    have hcs : cs = [] := by
      rw [← List.reverse_reverse cs, hr]
      rfl
    rw [hcs]
  · have hc2 : c2 ≠ '=' := by
      intro he
      exact h (by rw [← List.mem_reverse, hr, he]; simp)
    simp only [if_true]
    rw [if_neg hc2, ← hr, List.reverse_reverse]

theorem dropTrailingEq2_two (cs : List Char) (h : ('=' : Char) ∉ cs) :
    dropTrailingEq2 (cs ++ ['=', '=']) = cs := by
  unfold dropTrailingEq2
  have hrev : (cs ++ ['=', '=']).reverse = '=' :: '=' :: cs.reverse := by simp
  rw [hrev]
  simp only [if_true]
  rw [List.reverse_reverse]

theorem b64Chunks_no_eq (bs : List Nat) (h : ∀ b ∈ bs, b < 256) :
    ('=' : Char) ∉ b64Chunks bs := by
  intro hm
  rcases b64Chunks_mem bs h '=' hm with ⟨n, hn, he⟩
  exact (b64Char_facts n hn).2.2.1 he.symm

theorem b64EncodeBytes_data (bs : List Nat) :
    (b64EncodeBytes bs).data = b64Chunks bs ++ List.replicate (b64PadLen bs.length) '=' := rfl

theorem b64EncodeBytes_len4 (bs : List Nat) :
    ((b64EncodeBytes bs).data.length) % 4 = 0 := by
  rw [b64EncodeBytes_data]
  rw [List.length_append, List.length_replicate, b64Chunks_len]
  unfold b64PadLen
  split <;> omega

theorem atob_encode (bs : List Nat) (h : ∀ b ∈ bs, b < 256) :
    atob? (b64EncodeBytes bs) = some bs := by
  unfold atob?
  simp only []
  have hfilter : (b64EncodeBytes bs).data.filter (fun c => !isB64Ws c) =
      (b64EncodeBytes bs).data := by
    rw [List.filter_eq_self]
    intro c hc
    rw [b64EncodeBytes_data, List.mem_append] at hc
    rcases hc with hc | hc
    · rcases b64Chunks_mem bs h c hc with ⟨n, hn, he⟩
      subst he
      rw [(b64Char_facts n hn).2.1]
      rfl
    · rw [List.eq_of_mem_replicate hc]
      rfl
  rw [hfilter]
  rw [if_pos (b64EncodeBytes_len4 bs)]
  have hchlen := b64Chunks_len bs
  have hdrop : dropTrailingEq2 (b64EncodeBytes bs).data = b64Chunks bs := by
    rw [b64EncodeBytes_data]
    unfold b64PadLen
    by_cases h0 : bs.length % 3 = 0
    · rw [if_pos h0]
      simp only [List.replicate, List.append_nil]
      exact dropTrailingEq2_no_eq _ (b64Chunks_no_eq bs h)
    · rw [if_neg h0]
      by_cases h1 : bs.length % 3 = 1
      · rw [show 3 - bs.length % 3 = 2 by omega]
        rw [show (List.replicate 2 '=' : List Char) = ['=', '='] from rfl]
        exact dropTrailingEq2_two _ (b64Chunks_no_eq bs h)
      · rw [show 3 - bs.length % 3 = 1 by omega]
        rw [show (List.replicate 1 '=' : List Char) = ['='] from rfl]
        exact dropTrailingEq2_one _ (b64Chunks_no_eq bs h)
  rw [hdrop]
  rw [if_neg (by
    rw [hchlen]
    split <;> omega)]
  exact b64DecodeChunks_encode bs h

theorem string_mk_data (s : String) : String.mk s.data = s := rfl

theorem normB64_map_encode (bs : List Nat) (h : ∀ b ∈ bs, b < 256)
    (f : Char → Char) (hf : ∀ n < 64, normB64Char (f (b64Char n)) = b64Char n)
    (hfe : normB64Char (f '=') = '=') :
    ((b64EncodeBytes bs).data.map f).map normB64Char = (b64EncodeBytes bs).data := by
  rw [b64EncodeBytes_data, List.map_append, List.map_append, List.map_map, List.map_map]
  congr 1
  · have hcongr : ∀ c ∈ b64Chunks bs, (normB64Char ∘ f) c = id c := by
      intro c hc
      rcases b64Chunks_mem bs h c hc with ⟨n, hn, he⟩
      subst he
      exact hf n hn
    rw [List.map_congr_left hcongr, List.map_id]
  · rw [List.map_replicate]
    rw [show (normB64Char ∘ f) '=' = '=' from hfe]

theorem normalizeBase64_variant (bs : List Nat) (h : ∀ b ∈ bs, b < 256)
    (f : Char → Char) (hf : ∀ n < 64, normB64Char (f (b64Char n)) = b64Char n)
    (hfe : normB64Char (f '=') = '=') :
    normalizeBase64 (String.mk ((b64EncodeBytes bs).data.map f)) = b64EncodeBytes bs := by
  unfold normalizeBase64
  simp only [string_data_mk]
  rw [normB64_map_encode bs h f hf hfe]
  rw [if_pos (b64EncodeBytes_len4 bs)]

theorem dropWhile_replicate_eq (n : Nat) (l : List Char) :
    List.dropWhile (fun c => c == '=') (List.replicate n '=' ++ l) =
      List.dropWhile (fun c => c == '=') l := by
  induction n with
  | zero => rfl
  | succ n ih =>
    rw [List.replicate_succ, List.cons_append, List.dropWhile_cons]
    rw [if_pos (by decide)]
    exact ih

theorem dropPadding_encode (bs : List Nat) (h : ∀ b ∈ bs, b < 256)
    (f : Char → Char) (hfne : ∀ n < 64, f (b64Char n) ≠ '=') (hfeq : f '=' = '=') :
    (dropPadding (String.mk ((b64EncodeBytes bs).data.map f))).data =
      (b64Chunks bs).map f := by
  unfold dropPadding
  rw [string_data_mk, string_data_mk]
  rw [b64EncodeBytes_data, List.map_append, List.map_replicate, hfeq,
    List.reverse_append, List.reverse_replicate, dropWhile_replicate_eq]
  cases hch : ((b64Chunks bs).map f).reverse with
  | nil =>
    have : (b64Chunks bs).map f = [] := by
      rw [← List.reverse_reverse ((b64Chunks bs).map f), hch]
      rfl
    rw [this]
    rfl
  | cons c t =>
    have hcmem : c ∈ (b64Chunks bs).map f := by
      rw [← List.mem_reverse, hch]
      simp
    have hcne : c ≠ '=' := by
      rcases List.mem_map.mp hcmem with ⟨a, ha, hfa⟩
      rcases b64Chunks_mem bs h a ha with ⟨n, hn, he⟩
      subst he
      rw [← hfa]
      exact hfne n hn
    rw [List.dropWhile_cons]
    rw [if_neg (by simp [hcne])]
    rw [← hch, List.reverse_reverse]

theorem normalizeBase64_variant_unpad (bs : List Nat) (h : ∀ b ∈ bs, b < 256)
    (f : Char → Char) (hf : ∀ n < 64, normB64Char (f (b64Char n)) = b64Char n)
    (hfne : ∀ n < 64, f (b64Char n) ≠ '=') (hfeq : f '=' = '=') :
    normalizeBase64 (dropPadding (String.mk ((b64EncodeBytes bs).data.map f)))
      = b64EncodeBytes bs := by
  unfold normalizeBase64
  simp only []
  rw [dropPadding_encode bs h f hfne hfeq]
  have hmap : ((b64Chunks bs).map f).map normB64Char = b64Chunks bs := by
    rw [List.map_map]
    have hcongr : ∀ c ∈ b64Chunks bs, (normB64Char ∘ f) c = id c := by
      intro c hc
      rcases b64Chunks_mem bs h c hc with ⟨n, hn, he⟩
      subst he
      exact hf n hn
    rw [List.map_congr_left hcongr, List.map_id]
  rw [hmap]
  have hlen := b64Chunks_len bs
  by_cases h0 : bs.length % 3 = 0
  · rw [if_pos (by rw [hlen, if_pos h0]; omega)]
    unfold b64EncodeBytes
    unfold b64PadLen
    rw [if_pos h0]
    simp [List.replicate]
  · rw [if_neg (by rw [hlen, if_neg h0]; omega)]
    unfold b64EncodeBytes
    have hcount : 4 - (b64Chunks bs).length % 4 = b64PadLen bs.length := by
      rw [hlen, if_neg h0]
      unfold b64PadLen
      rw [if_neg h0]
      omega
    rw [hcount]

theorem splitDC_dc (rest : List Char) : splitDC (':' :: ':' :: rest) = [] :: splitDC rest := rfl

theorem splitDC_cons_ne (c c2 : Char) (rest : List Char)
    (h : ¬ (c = ':' ∧ c2 = ':')) :
    splitDC (c :: c2 :: rest) =
      match splitDC (c2 :: rest) with
      | [] => [[c]]
      | p :: ps => (c :: p) :: ps := by
  rw [splitDC.eq_def]
  split
  · next heq => simp at heq
  · next heq =>
    simp only [List.cons.injEq] at heq
    exact absurd ⟨heq.1, heq.2.1⟩ h
  · next heq =>
    simp only [List.cons.injEq] at heq
    rw [← heq.1, ← heq.2]

theorem splitDC_one (c : Char) : splitDC [c] = [[c]] := by
  rw [splitDC.eq_def]
  split
  · next heq => simp at heq
  · next heq => simp at heq
  · next heq =>
    simp only [List.cons.injEq] at heq
    rw [← heq.1, ← heq.2]
    rfl

theorem splitDC_ne_nil (cs : List Char) : splitDC cs ≠ [] := by
  cases cs with
  | nil => exact List.cons_ne_nil [] []
  | cons c rest =>
    cases rest with
    | nil =>
      rw [splitDC_one]
      exact List.cons_ne_nil _ _
    | cons c2 r2 =>
      by_cases hdc : c = ':' ∧ c2 = ':'
      · rw [hdc.1, hdc.2, splitDC_dc]
        exact List.cons_ne_nil _ _
      · rw [splitDC_cons_ne c c2 r2 hdc]
        rcases hs : splitDC (c2 :: r2) with _ | ⟨p, ps⟩
        · exact List.cons_ne_nil _ _
        · exact List.cons_ne_nil _ _

theorem splitDC_append (X E : List Char) (hXdc : splitDC X = [X])
    (hlast : X.getLast? ≠ some ':') :
    splitDC (X ++ ':' :: ':' :: E) = X :: splitDC E := by
  induction X with
  | nil =>
    rw [List.nil_append, splitDC_dc]
  | cons c X' ih =>
    by_cases hc : c = ':'
    · subst hc
      cases X' with
      | nil =>
        exact absurd (by simp : ([':'] : List Char).getLast? = some ':') hlast
      | cons c2 X'' =>
        by_cases hc2 : c2 = ':'
        · subst hc2
          rw [splitDC_dc] at hXdc
          simp at hXdc
        · have hne : ¬ ((':' : Char) = ':' ∧ c2 = ':') := fun hh => hc2 hh.2
          rw [splitDC_cons_ne ':' c2 X'' hne] at hXdc
          rcases hs : splitDC (c2 :: X'') with _ | ⟨p, ps⟩
          · exact absurd hs (splitDC_ne_nil _)
          · rw [hs] at hXdc
            simp only [] at hXdc
            rw [List.cons.injEq] at hXdc
            obtain ⟨h1, hps⟩ := hXdc
            rw [List.cons.injEq] at h1
            obtain ⟨_, hp⟩ := h1
            rw [hp, hps] at hs
            have hlast' : (c2 :: X'').getLast? ≠ some ':' := by
              rw [List.getLast?_cons_cons] at hlast
              exact hlast
            have hstep := ih hs hlast'
            simp only [List.cons_append]
            rw [splitDC_cons_ne ':' c2 (X'' ++ ':' :: ':' :: E) hne]
            simp only [List.cons_append] at hstep
            rw [hstep]
    · cases X' with
      | nil =>
        have hne : ¬ (c = ':' ∧ (':' : Char) = ':') := fun hh => hc hh.1
        simp only [List.cons_append, List.nil_append]
        rw [splitDC_cons_ne c ':' (':' :: E) hne]
        rw [splitDC_dc]
      | cons c2 X'' =>
        have hne : ¬ (c = ':' ∧ c2 = ':') := fun hh => hc hh.1
        rw [splitDC_cons_ne c c2 X'' hne] at hXdc
        rcases hs : splitDC (c2 :: X'') with _ | ⟨p, ps⟩
        · exact absurd hs (splitDC_ne_nil _)
        · rw [hs] at hXdc
          simp only [] at hXdc
          rw [List.cons.injEq] at hXdc
          obtain ⟨h1, hps⟩ := hXdc
          rw [List.cons.injEq] at h1
          obtain ⟨_, hp⟩ := h1
          rw [hp, hps] at hs
          have hlast' : (c2 :: X'').getLast? ≠ some ':' := by
            rw [List.getLast?_cons_cons] at hlast
            exact hlast
          have hstep := ih hs hlast'
          simp only [List.cons_append]
          rw [splitDC_cons_ne c c2 (X'' ++ ':' :: ':' :: E) hne]
          simp only [List.cons_append] at hstep
          rw [hstep]

theorem isPrefixOf_append (l t : List Char) : l.isPrefixOf (l ++ t) = true := by
  induction l with
  | nil => simp [List.isPrefixOf]
  | cons a l ih =>
    simp only [List.cons_append, List.isPrefixOf]
    simp [ih]

theorem string_data_append (a b : String) : (a ++ b).data = a.data ++ b.data := rfl

theorem map_ofNat_toNat (l : List Char) (h : ∀ c ∈ l, c.toNat < 0xD800) :
    (l.map Char.toNat).map Char.ofNat = l := by
  rw [List.map_map]
  have hcongr : ∀ c ∈ l, (Char.ofNat ∘ Char.toNat) c = id c := fun c _ =>
    Char.ofNat_toNat c
  rw [List.map_congr_left hcongr, List.map_id]

theorem normalizeBase64_encode (bs : List Nat) (h : ∀ b ∈ bs, b < 256) :
    normalizeBase64 (b64EncodeBytes bs) = b64EncodeBytes bs := by
  have hv := normalizeBase64_variant bs h (fun c => c)
    (fun n hn => (b64Char_facts n hn).2.2.2) (by decide)
  rw [show String.mk ((b64EncodeBytes bs).data.map (fun c => c)) = b64EncodeBytes bs by
    rw [List.map_id']] at hv
  exact hv

theorem strBytes_lt_256 (s : String) (h : ∀ c ∈ s.data, c.toNat < 256) :
    ∀ b ∈ strBytes s, b < 256 := by
  intro b hb
  rcases List.mem_map.mp hb with ⟨c, hc, he⟩
  subst he
  exact h c hc

theorem decodePublishableKey_mkKey (x env : String)
    (hx : x.data ≠ []) (henv : env.data ≠ [])
    (hxdc : splitDC x.data = [x.data]) (henvdc : splitDC env.data = [env.data])
    (hxlast : x.data.getLast? ≠ some ':')
    (hx256 : ∀ c ∈ x.data, c.toNat < 256) (henv256 : ∀ c ∈ env.data, c.toNat < 256) :
    decodePublishableKey (mkPublishableKey x env) = .ok ⟨x, env⟩ := by
  have hall256 : ∀ c ∈ (x ++ "::" ++ env).data, c.toNat < 256 := by
    intro c hc
    rw [string_data_append, string_data_append, List.append_assoc] at hc
    rw [show ("::" : String).data = [':', ':'] from rfl] at hc
    rw [List.mem_append] at hc
    rcases hc with hc | hc
    · exact hx256 c hc
    · rw [List.mem_append] at hc
      rcases hc with hc | hc
      · simp only [List.mem_cons, List.not_mem_nil, or_false] at hc
        rcases hc with hc | hc <;> (subst hc; decide)
      · exact henv256 c hc
  have hb256 := strBytes_lt_256 _ hall256
  unfold decodePublishableKey mkPublishableKey
  rw [string_data_mk]
  rw [if_pos (isPrefixOf_append _ _)]
  rw [List.drop_left]
  rw [string_mk_data]
  rw [normalizeBase64_encode _ hb256]
  unfold atobStr?
  rw [atob_encode _ hb256]
  simp only [Option.map]
  have hlist : (strBytes (x ++ "::" ++ env)).map Char.ofNat
      = x.data ++ ':' :: ':' :: env.data := by
    unfold strBytes
    rw [map_ofNat_toNat _ (fun c hc => by
      have := hall256 c hc
      omega)]
    rw [string_data_append, string_data_append, List.append_assoc]
    rfl
  show decodePayload (String.mk ((strBytes (x ++ "::" ++ env)).map Char.ofNat))
      = Except.ok ⟨x, env⟩
  unfold decodePayload
  rw [string_data_mk]
  rw [hlist]
  rw [splitDC_append x.data env.data hxdc hxlast, henvdc]
  simp only []
  rw [if_pos ⟨hx, henv⟩]

theorem decodePublishableKey_noPrefix (s : String)
    (h : pkHead.isPrefixOf s.data = false) :
    decodePublishableKey s = .error .invalidKey := by
  unfold decodePublishableKey
  rw [if_neg (by rw [h]; exact Bool.false_ne_true)]

theorem decodePublishableKey_badEncoding (s : String)
    (hpre : pkHead.isPrefixOf s.data = true)
    (hatob : atobStr? (normalizeBase64 (String.mk (s.data.drop pkHead.length))) = none) :
    decodePublishableKey s = .error .invalidEncoding := by
  unfold decodePublishableKey
  rw [if_pos hpre, hatob]

theorem decodePublishableKey_badPayload (s : String) (decoded : String)
    (hpre : pkHead.isPrefixOf s.data = true)
    (hatob : atobStr? (normalizeBase64 (String.mk (s.data.drop pkHead.length)))
      = some decoded)
    (hbad : match splitDC decoded.data with
      | [p1, p2] => p1 = [] ∨ p2 = []
      | _ => True) :
    decodePublishableKey s = .error .invalidPayload := by
  unfold decodePublishableKey
  rw [if_pos hpre, hatob]
  show decodePayload decoded = Except.error PKError.invalidPayload
  unfold decodePayload
  rcases hs : splitDC decoded.data with _ | ⟨p1, _ | ⟨p2, _ | ⟨p3, rest3⟩⟩⟩
  · rfl
  · rfl
  · rw [hs] at hbad
    simp only [] at hbad
    simp only []
    rw [if_neg (fun hcon => by
      rcases hbad with hb | hb
      · exact hcon.1 hb
      · exact hcon.2 hb)]
  · rfl

theorem decode_mkKeyWith_congr (a b : String)
    (hn : normalizeBase64 a = normalizeBase64 b) :
    decodePublishableKey (String.mk (pkHead ++ a.data)) =
      decodePublishableKey (String.mk (pkHead ++ b.data)) := by
  unfold decodePublishableKey
  rw [string_data_mk, string_data_mk]
  rw [if_pos (isPrefixOf_append _ _), if_pos (isPrefixOf_append _ _)]
  rw [List.drop_left, List.drop_left]
  rw [string_mk_data, string_mk_data, hn]

/-! ## Location model: callback detection and URL scrubbing

`JsLocation` models `window.location` as its `search` part (empty or
starting with `?`) and `hash` part (empty or starting with `#`).  The
embedding assumes a browser context (the `typeof window === "undefined"`
guards in the source are outside the modelled state space) and that the
hash text is already fragment-serialized, as any string read back from a
real `location`/`URL` is.
-/

structure JsLocation where
  search : String
  hash : String
deriving DecidableEq, Repr

def stripHashMark : List Char → List Char
  | [] => []
  | c :: rest => if c = '#' then rest else c :: rest

/-- JS `haystack.includes(pattern)`. -/
def containsSeq (pat : List Char) : List Char → Bool
  | [] => pat.isEmpty
  | c :: rest => pat.isPrefixOf (c :: rest) || containsSeq pat rest

/-- `getAuthParamsFromLocation` from `client.ts`. -/
def getAuthParamsFromLocation (loc : JsLocation) : List (String × String) :=
  let params := parseQS loc.search
  if serializeQS params ≠ "" then params
  else if loc.hash = "" then params
  else
    let hashValue := stripHashMark loc.hash.data
    match hashValue.findIdx? (fun c => c = '?') with
    | some i => parseQS (String.mk (hashValue.drop (i + 1)))
    | none =>
      if containsSeq "code=".data hashValue || containsSeq "state=".data hashValue then
        parseQS (String.mk hashValue)
      else params

/-- `isRedirectCallback` from `client.ts`. -/
def isRedirectCallback (loc : JsLocation) : Bool :=
  let params := getAuthParamsFromLocation loc
  hasParam params "code" || hasParam params "state" ||
    hasParam params "error" || hasParam params "id_token"

def isScrubKey (k : String) : Bool :=
  k == "code" || k == "state" || k == "session_state" ||
    k == "error" || k == "error_description"

/-- `clearAuthParamsFromUrl` from `client.ts`: delete the five auth
parameters from the query and from the hash's parameter sub-structure,
rebuilding the location the way `URL`/`URLSearchParams` serialize it. -/
def clearAuthParamsFromUrl (loc : JsLocation) : JsLocation :=
  let qs := (parseQS loc.search).filter (fun p => !isScrubKey p.1)
  let search' := if qs.isEmpty then "" else "?" ++ serializeQS qs
  let hash := stripHashMark loc.hash.data
  let hash' :=
    if hash.isEmpty then loc.hash
    else
      match hash.findIdx? (fun c => c = '?') with
      | some i =>
        let route := hash.take i
        let hp := (parseQS (String.mk (hash.drop (i + 1)))).filter (fun p => !isScrubKey p.1)
        let cleaned := serializeQS hp
        if route ≠ [] then
          if cleaned ≠ "" then "#" ++ String.mk route ++ "?" ++ cleaned
          else "#" ++ String.mk route
        else
          if cleaned ≠ "" then "#" ++ cleaned else ""
      | none =>
        if containsSeq ['='] hash then
          let hp := (parseQS (String.mk hash)).filter (fun p => !isScrubKey p.1)
          let cleaned := serializeQS hp
          if cleaned ≠ "" then "#" ++ cleaned else ""
        else loc.hash
  ⟨search', hash'⟩

/-- The hash's parameter sub-structure as the specification describes it:
the part after the fragment's own `?`, or the whole fragment when it is
itself a parameter string. -/
def hashParamSubstructure (h : String) : List (String × String) :=
  let hv := stripHashMark h.data
  match hv.findIdx? (fun c => c = '?') with
  | some i => parseQS (String.mk (hv.drop (i + 1)))
  | none => if containsSeq ['='] hv then parseQS (String.mk hv) else []

/-! ## Session renewal guard (`ensureUser`) -/

structure OidcUser where
  access_token : String
  expired : Bool
deriving DecidableEq, Repr

inductive RenewalOutcome
  | throws
  | result (u : Option OidcUser)
deriving DecidableEq, Repr

inductive EnsureError
  | unauthenticated
deriving DecidableEq, Repr

def ensureUserRenew : RenewalOutcome → Except EnsureError OidcUser × Nat
  | .throws => (.error .unauthenticated, 1)
  | .result none => (.error .unauthenticated, 1)
  | .result (some r) => if !r.expired then (.ok r, 1) else (.error .unauthenticated, 1)

/-- `ensureUser` from `client.ts`, instrumented with the number of
`signinSilent` calls made.  `renew` is the behaviour of the single
`signinSilent()` invocation: it throws, or resolves with `null` or a
user. -/
def ensureUser (stored : Option OidcUser) (renew : RenewalOutcome) :
    Except EnsureError OidcUser × Nat :=
  match stored with
  | some u => if !u.expired then (.ok u, 0) else ensureUserRenew renew
  | none => ensureUserRenew renew

/-! ## Sign-in strategy selection -/

/-- Result of evaluating `window.self !== window.top`: no window at all,
the comparison returns false (top-level), returns true (framed), or
throws a cross-origin security error. -/
inductive FrameCheck
  | noWindow
  | same
  | different
  | throwsSec
deriving DecidableEq, Repr

/-- `isInIframe` from `client.ts`: a thrown comparison counts as framed. -/
def isInIframe : FrameCheck → Bool
  | .noWindow => false
  | .same => false
  | .different => true
  | .throwsSec => true

/-- A thrown JS value: an `Error` with a message, or any other value. -/
inductive Thrown
  | errObj (msg : String)
  | nonError
deriving DecidableEq, Repr

/-- JS `toLowerCase` restricted to ASCII (the matched substrings are
ASCII). -/
def lowerStr (s : String) : String := String.mk (s.data.map Char.toLower)

def strIncludes (s pat : String) : Bool := containsSeq pat.data s.data

/-- `shouldFallbackFromPopup` from `client.ts`. -/
def shouldFallbackFromPopup : Thrown → Bool
  | .nonError => false
  | .errObj msg =>
    strIncludes (lowerStr msg) "popup" || strIncludes (lowerStr msg) "window closed" ||
      strIncludes (lowerStr msg) "window.open returned null"

inductive PopupOutcome
  | ok
  | fails (t : Thrown)
deriving DecidableEq, Repr

inductive RedirectOutcome
  | ok
  | fails
deriving DecidableEq, Repr

inductive RedirectTarget
  | top
  | selfTarget
deriving DecidableEq, Repr

inductive SignInError
  | propagated (t : Thrown)
  | embeddedLoginBlocked
  | redirectFailed
deriving DecidableEq, Repr

deriving instance DecidableEq for Except

/-- A run of the sign-in entry point: how many `signinPopup` calls were
made, which `signinRedirect` calls were made (with their
`redirectTarget`), and the outcome. -/
structure SignInTrace where
  popupAttempts : Nat
  redirects : List RedirectTarget
  result : Except SignInError Unit
deriving DecidableEq, Repr

/-- `signInWithRedirect` from `client.ts`: one `signinRedirect` call with
`redirectTarget` chosen from the frame check; a failure becomes
`EmbeddedLoginBlocked` when framed and `RedirectFailed` otherwise. -/
def signInWithRedirect (fc : FrameCheck) (ro : RedirectOutcome) :
    Except SignInError Unit × List RedirectTarget :=
  let isIframe := isInIframe fc
  let target := if isIframe then RedirectTarget.top else RedirectTarget.selfTarget
  match ro with
  | .ok => (.ok (), [target])
  | .fails =>
    (if isIframe then .error .embeddedLoginBlocked else .error .redirectFailed, [target])

/-- `signInWithPopupOrRedirectFallback` from `client.ts`. -/
def signInWithPopupOrRedirectFallback (fc : FrameCheck) (po : PopupOutcome)
    (ro : RedirectOutcome) : SignInTrace :=
  match po with
  | .ok => ⟨1, [], .ok ()⟩
  | .fails t =>
    if shouldFallbackFromPopup t then
      let r := signInWithRedirect fc ro
      ⟨1, r.2, r.1⟩
    else ⟨1, [], .error (.propagated t)⟩

/-- `signInRedirect` from `client.ts`. -/
def signInRedirect (fc : FrameCheck) (po : PopupOutcome) (ro : RedirectOutcome) :
    SignInTrace :=
  if isInIframe fc then signInWithPopupOrRedirectFallback fc po ro
  else
    let r := signInWithRedirect fc ro
    ⟨0, r.2, r.1⟩

/-! ## `init`: callback-exchange completion -/

/-- Status of `window.opener`. -/
inductive OpenerStatus
  | noOpener
  | selfOpener
  | otherWindow
deriving DecidableEq, Repr

/-- `isPopupContext` from `client.ts`: a truthy opener distinct from the
window itself. -/
def isPopupContext : OpenerStatus → Bool
  | .noOpener => false
  | .selfOpener => false
  | .otherWindow => true

/-- `isMissingCallbackStateError` from `client.ts`. -/
def isMissingCallbackStateError : Thrown → Bool
  | .nonError => false
  | .errObj msg =>
    strIncludes (lowerStr msg) "no state in response" ||
      strIncludes (lowerStr msg) "state not found in storage" ||
      strIncludes (lowerStr msg) "invalid response_type in state"

inductive ExchangeOutcome
  | ok
  | fails (t : Thrown)
deriving DecidableEq, Repr

/-- Observable effects of one `init()` run. -/
structure InitTrace where
  exchanged : Bool
  scrubbedUrl : Bool
  closedPopup : Bool
  result : Except Thrown Unit
deriving DecidableEq, Repr

/-- `init` from `client.ts`.  `exchange` is the behaviour of the
`handleAuthCallback()` exchange when it runs. -/
def initRun (loc : JsLocation) (opener : OpenerStatus) (exchange : ExchangeOutcome) :
    InitTrace :=
  let hasCallbackParams := isRedirectCallback loc
  let isPopupWindow := isPopupContext opener
  if !hasCallbackParams && !isPopupWindow then ⟨false, false, false, .ok ()⟩
  else
    match exchange with
    | .ok => ⟨true, hasCallbackParams, false, .ok ()⟩
    | .fails e =>
      if isPopupWindow && isMissingCallbackStateError e then ⟨true, false, true, .ok ()⟩
      else ⟨true, false, false, .error e⟩

/-! ## Auth-state broadcaster (`onAuthStateChange`)

The broadcaster is modelled as a state machine over one subscription:
`bstep` applies one atomic event.  Lifecycle signals invoke the
registered handlers; `completeFetch` is the resolution of one in-flight
`getUser()` read (it reads the store at resolution time); `setStored`
is an external write to the shared persistent user store. -/

structure AuthState where
  user : Option OidcUser
  isAuthenticated : Bool
deriving DecidableEq, Repr

/-- `toAuthState` from `client.ts`. -/
def toAuthState (u : Option OidcUser) : AuthState :=
  match u with
  | some usr => if !usr.expired then ⟨some usr, true⟩ else ⟨none, false⟩
  | none => ⟨none, false⟩

/-- `toAuthStateChangeTrigger` from `client.ts`. -/
def toAuthStateChangeTrigger (u : Option OidcUser) : String :=
  match u with
  | some usr => if !usr.expired then "authenticated" else "unauthenticated"
  | none => "unauthenticated"

structure Handlers where
  userLoaded : Bool
  userUnloaded : Bool
  userSignedOut : Bool
  accessTokenExpired : Bool
  silentRenewError : Bool
deriving DecidableEq, Repr

def allHandlers : Handlers := ⟨true, true, true, true, true⟩

def noHandlers : Handlers := ⟨false, false, false, false, false⟩

structure BroadcastState where
  storedUser : Option OidcUser
  isSubscribed : Bool
  handlers : Handlers
  pendingFetches : Nat
  emissions : List (AuthState × String)
deriving DecidableEq, Repr

/-- State right after `onAuthStateChange(listener)` returns: handlers
registered, the initial `emitCurrentState()` scheduled but not yet
delivered. -/
def subscribeState (u0 : Option OidcUser) : BroadcastState :=
  ⟨u0, true, allHandlers, 1, []⟩

inductive BAction
  | setStored (u : Option OidcUser)
  | fireUserLoaded (u : OidcUser)
  | fireUserUnloaded
  | fireUserSignedOut
  | fireAccessTokenExpired
  | fireSilentRenewError
  | completeFetch
  | unsubscribe
deriving DecidableEq, Repr

/-- `emitState` from `client.ts`: deliver to the listener unless the
subscription flag has been cleared. -/
def emitState (s : BroadcastState) (u : Option OidcUser) : BroadcastState :=
  if s.isSubscribed then
    { s with emissions := s.emissions ++ [(toAuthState u, toAuthStateChangeTrigger u)] }
  else s

def bstep (s : BroadcastState) : BAction → BroadcastState
  | .setStored u => { s with storedUser := u }
  | .fireUserLoaded u => if s.handlers.userLoaded then emitState s (some u) else s
  | .fireUserUnloaded =>
    if s.handlers.userUnloaded then { s with pendingFetches := s.pendingFetches + 1 } else s
  | .fireUserSignedOut =>
    if s.handlers.userSignedOut then { s with pendingFetches := s.pendingFetches + 1 } else s
  | .fireAccessTokenExpired =>
    if s.handlers.accessTokenExpired then { s with pendingFetches := s.pendingFetches + 1 }
    else s
  | .fireSilentRenewError =>
    if s.handlers.silentRenewError then { s with pendingFetches := s.pendingFetches + 1 }
    else s
  | .completeFetch =>
    match s.pendingFetches with
    | 0 => s
    | n + 1 => emitState { s with pendingFetches := n } s.storedUser
  | .unsubscribe => { s with isSubscribed := false, handlers := noHandlers }

def brun (s : BroadcastState) (as : List BAction) : BroadcastState := as.foldl bstep s

/-! ## Settings resolution and construction -/

structure UserManagerSettings where
  authority : String
  client_id : String
  redirect_uri : String
  silent_redirect_uri : String
  response_type : String
  scope : String
  userStoreBound : Bool
  stateStoreBound : Bool
deriving DecidableEq, Repr

/-- `Partial<UserManagerSettings>` override map (fields present in the
spread replace the derived defaults). -/
structure AuthOverrides where
  authority : Option String
  client_id : Option String
  redirect_uri : Option String
  silent_redirect_uri : Option String
  response_type : Option String
  scope : Option String
deriving DecidableEq, Repr

def noOverrides : AuthOverrides := ⟨none, none, none, none, none, none⟩

/-- The `{...defaults, ...overrides}` shallow spread. -/
def applyOverrides (d : UserManagerSettings) (o : AuthOverrides) : UserManagerSettings :=
  { authority := o.authority.getD d.authority
    client_id := o.client_id.getD d.client_id
    redirect_uri := o.redirect_uri.getD d.redirect_uri
    silent_redirect_uri := o.silent_redirect_uri.getD d.silent_redirect_uri
    response_type := o.response_type.getD d.response_type
    scope := o.scope.getD d.scope
    userStoreBound := d.userStoreBound
    stateStoreBound := d.stateStoreBound }

structure SyncHiveOptions where
  publishableKey : Option String
  apiBaseUrl : Option String
  auth : Option UserManagerSettings
  authOverrides : AuthOverrides
  storageProvided : Bool
deriving DecidableEq, Repr

inductive CtorError
  | keyError (e : PKError)
  | missingApiBaseUrl
  | missingStorage
  | missingAuthConfig
  | browserRequired
deriving DecidableEq, Repr

/-- Models `new URL(origin).toString()` for a standard origin: URL
serialization appends the root path, so the result is the origin
followed by `/`. -/
def urlStringOfOrigin (origin : String) : String := origin ++ "/"

/-- `resolveAuthSettings` from `client.ts`.  `publishableKey`/`derived`
are `none` when absent or falsy; the store bindings are recorded as the
two `userStoreBound`/`stateStoreBound` flags. -/
def resolveAuthSettings (publishableKey : Option String)
    (derived : Option DecodedPublishableKey) (auth : Option UserManagerSettings)
    (authOverrides : AuthOverrides) (windowPresent : Bool) (origin : String) :
    Except CtorError UserManagerSettings :=
  match auth with
  | some a => .ok { a with userStoreBound := true, stateStoreBound := true }
  | none =>
    match publishableKey, derived with
    | some pk, some d =>
      if !windowPresent then .error .browserRequired
      else
        let defaults : UserManagerSettings :=
          { authority := "https://apis." ++ d.environment ++ ".synchive.com/v1/auth/"
            client_id := pk
            redirect_uri := urlStringOfOrigin origin
            silent_redirect_uri := urlStringOfOrigin origin
            response_type := "code"
            scope := "openid profile offline_access"
            userStoreBound := false
            stateStoreBound := false }
        .ok { applyOverrides defaults authOverrides with
                userStoreBound := true, stateStoreBound := true }
    | _, _ => .error .missingAuthConfig

/-- JS `String.prototype.trim` restricted to ASCII whitespace. -/
def isJsWs (c : Char) : Bool :=
  c == ' ' || c == '\t' || c == '\n' || c == '\r' || c == '\x0c' || c == '\x0b'

def jsTrim (s : String) : String :=
  String.mk (((s.data.dropWhile isJsWs).reverse.dropWhile isJsWs).reverse)

structure ClientConfig where
  apiBaseUrl : String
  auth : UserManagerSettings
deriving DecidableEq, Repr

/-- The `SyncHiveClient` constructor from `client.ts`: trim the key,
eagerly decode a non-empty key (propagating its errors), derive the data
API base URL, check API base URL and storage, then resolve the auth
settings. -/
def constructClient (options : SyncHiveOptions) (windowPresent : Bool) (origin : String)
    (defaultStorageAvailable : Bool) : Except CtorError ClientConfig :=
  let pk : Option String :=
    match options.publishableKey.map jsTrim with
    | some s => if s = "" then none else some s
    | none => none
  match (match pk with
    | some k => (decodePublishableKey k).map some
    | none => .ok none : Except PKError (Option DecodedPublishableKey)) with
  | .error e => .error (.keyError e)
  | .ok derived =>
    let derivedApiBaseUrl := derived.map
      (fun d => "https://apis." ++ d.environment ++ ".synchive.com/v1/shape")
    match options.apiBaseUrl <|> derivedApiBaseUrl with
    | none => .error .missingApiBaseUrl
    | some u =>
      if u = "" then .error .missingApiBaseUrl
      else if !(options.storageProvided || defaultStorageAvailable) then
        .error .missingStorage
      else
        match resolveAuthSettings pk derived options.auth options.authOverrides
            windowPresent origin with
        | .error e => .error e
        | .ok auth => .ok ⟨u, auth⟩

/-! ## Claim theorems -/

/-- C1: for every stored session state, an existing unexpired session is
returned with no renewal attempt; otherwise exactly one silent renewal is
attempted, an unexpired renewal result is returned, and a renewal that
throws, resolves null, or resolves an expired session is swallowed into
the `Unauthenticated` failure. -/
theorem claim_C1 (stored : Option OidcUser) (renew : RenewalOutcome) :
    (∀ u, stored = some u → u.expired = false →
      ensureUser stored renew = (.ok u, 0)) ∧
    ((stored = none ∨ ∃ u, stored = some u ∧ u.expired = true) →
      (ensureUser stored renew).2 = 1 ∧
      (∀ r, renew = .result (some r) → r.expired = false →
        ensureUser stored renew = (.ok r, 1)) ∧
      ((renew = .throws ∨ renew = .result none ∨
          (∃ r, renew = .result (some r) ∧ r.expired = true)) →
        (ensureUser stored renew).1 = .error .unauthenticated)) := by
  constructor
  · intro u hu he
    subst hu
    simp [ensureUser, he]
  · intro hexp
    have hren : ensureUser stored renew = ensureUserRenew renew := by
      rcases hexp with h | ⟨u, hu, he⟩
      · subst h
        rfl
      · subst hu
        simp [ensureUser, he]
    refine ⟨?_, ?_, ?_⟩
    · rw [hren]
      cases renew with
      | throws => rfl
      | result u =>
        cases u with
        | none => rfl
        | some r =>
          cases hb : r.expired <;> simp [ensureUserRenew, hb]
    · intro r hr hre
      subst hr
      rw [hren]
      simp [ensureUserRenew, hre]
    · intro hfail
      rw [hren]
      rcases hfail with h | h | ⟨r, hr, hre⟩
      · subst h
        rfl
      · subst h
        rfl
      · subst hr
        simp [ensureUserRenew, hre]

theorem claim_C1_witness :
    ensureUser (some ⟨"tok", false⟩) RenewalOutcome.throws = (.ok ⟨"tok", false⟩, 0) ∧
    ensureUser (some ⟨"old", true⟩) (.result (some ⟨"new", false⟩))
      = (.ok ⟨"new", false⟩, 1) ∧
    (ensureUser none .throws).1 = .error .unauthenticated := by
  refine ⟨?_, ?_, ?_⟩
  · exact (claim_C1 (some ⟨"tok", false⟩) .throws).1 ⟨"tok", false⟩ rfl rfl
  · exact ((claim_C1 (some ⟨"old", true⟩) (.result (some ⟨"new", false⟩))).2
      (Or.inr ⟨⟨"old", true⟩, rfl, rfl⟩)).2.1 ⟨"new", false⟩ rfl rfl
  · exact ((claim_C1 none .throws).2 (Or.inl rfl)).2.2 (Or.inl rfl)

/-- C2: cross-origin throws count as framed; in a framed context a popup
is attempted first, popup success attempts no redirect, a popup failure
matching the blocked/closed/failed-to-open messages leads to exactly one
redirect with `redirectTarget` top (whose failure is
`EmbeddedLoginBlocked`), any other popup failure propagates unchanged;
in a non-framed context exactly one redirect with `redirectTarget` self
is made, whose failure is `RedirectFailed`. -/
theorem claim_C2 (fc : FrameCheck) (po : PopupOutcome) (ro : RedirectOutcome) :
    isInIframe .throwsSec = true ∧
    (isInIframe fc = true →
      (po = .ok → signInRedirect fc po ro = ⟨1, [], .ok ()⟩) ∧
      (∀ t, po = .fails t → shouldFallbackFromPopup t = true →
        signInRedirect fc po ro =
          ⟨1, [.top], if ro = .ok then .ok () else .error .embeddedLoginBlocked⟩) ∧
      (∀ t, po = .fails t → shouldFallbackFromPopup t = false →
        signInRedirect fc po ro = ⟨1, [], .error (.propagated t)⟩)) ∧
    (isInIframe fc = false →
      signInRedirect fc po ro =
        ⟨0, [.selfTarget], if ro = .ok then .ok () else .error .redirectFailed⟩) := by
  refine ⟨rfl, ?_, ?_⟩
  · intro hif
    refine ⟨?_, ?_, ?_⟩
    · intro hpo
      subst hpo
      simp [signInRedirect, signInWithPopupOrRedirectFallback, hif]
    · intro t hpo hfb
      subst hpo
      simp only [signInRedirect, signInWithPopupOrRedirectFallback, signInWithRedirect,
        hif, if_true]
      rw [if_pos hfb]
      cases ro <;> simp
    · intro t hpo hfb
      subst hpo
      simp only [signInRedirect, signInWithPopupOrRedirectFallback, hif, if_true]
      rw [if_neg (by rw [hfb]; exact Bool.false_ne_true)]
  · intro hif
    simp only [signInRedirect, signInWithRedirect, hif]
    cases ro <;> simp

theorem claim_C2_witness :
    signInRedirect .throwsSec (.fails (.errObj "Popup window closed by user")) .fails
      = ⟨1, [.top], .error .embeddedLoginBlocked⟩ ∧
    signInRedirect .different .ok .ok = ⟨1, [], .ok ()⟩ ∧
    signInRedirect .different (.fails .nonError) .ok
      = ⟨1, [], .error (.propagated .nonError)⟩ ∧
    signInRedirect .same .ok .fails = ⟨0, [.selfTarget], .error .redirectFailed⟩ := by
  refine ⟨?_, ?_, ?_, ?_⟩
  · have h := ((claim_C2 .throwsSec (.fails (.errObj "Popup window closed by user"))
      .fails).2.1 rfl).2.1 (.errObj "Popup window closed by user") rfl (by decide)
    simpa using h
  · exact ((claim_C2 .different .ok .ok).2.1 rfl).1 rfl
  · exact ((claim_C2 .different (.fails .nonError) .ok).2.1 rfl).2.2 .nonError rfl (by decide)
  · have h := (claim_C2 .same .ok .fails).2.2 rfl
    simpa using h

/-- C4: `init` is a no-op when the location carries no callback parameters
and the window is not a popup; otherwise the exchange runs, success scrubs
the URL exactly when callback parameters were present, a failing exchange
in a popup whose message indicates lost callback state closes the popup
silently, and every other exchange failure propagates unchanged. -/
theorem claim_C4 (loc : JsLocation) (opener : OpenerStatus) (exchange : ExchangeOutcome) :
    (isRedirectCallback loc = false → isPopupContext opener = false →
      initRun loc opener exchange = ⟨false, false, false, .ok ()⟩) ∧
    ((isRedirectCallback loc = true ∨ isPopupContext opener = true) →
      (exchange = .ok →
        initRun loc opener exchange = ⟨true, isRedirectCallback loc, false, .ok ()⟩) ∧
      (∀ e, exchange = .fails e →
        (isPopupContext opener = true → isMissingCallbackStateError e = true →
          initRun loc opener exchange = ⟨true, false, true, .ok ()⟩) ∧
        ((isPopupContext opener = false ∨ isMissingCallbackStateError e = false) →
          initRun loc opener exchange = ⟨true, false, false, .error e⟩))) := by
  constructor
  · intro hcb hpc
    simp [initRun, hcb, hpc]
  · intro hor
    have hguard : (!isRedirectCallback loc && !isPopupContext opener) = false := by
      rcases hor with h | h <;> simp [h]
    refine ⟨?_, ?_⟩
    · intro hex
      subst hex
      simp [initRun, hguard]
    · intro e hex
      subst hex
      constructor
      · intro hpc hmiss
        simp [initRun, hguard, hpc, hmiss]
      · intro hother
        have hcond : (isPopupContext opener && isMissingCallbackStateError e) = false := by
          rcases hother with h | h <;> simp [h]
        simp [initRun, hguard, hcond]

theorem claim_C4_witness :
    initRun ⟨"", ""⟩ .noOpener .ok = ⟨false, false, false, .ok ()⟩ ∧
    initRun ⟨"?code=abc&state=xyz", ""⟩ .noOpener .ok = ⟨true, true, false, .ok ()⟩ ∧
    initRun ⟨"", ""⟩ .otherWindow (.fails (.errObj "No state in response"))
      = ⟨true, false, true, .ok ()⟩ ∧
    initRun ⟨"?code=abc", ""⟩ .noOpener (.fails (.errObj "server_error"))
      = ⟨true, false, false, .error (.errObj "server_error")⟩ := by
  refine ⟨?_, ?_, ?_, ?_⟩
  · exact (claim_C4 ⟨"", ""⟩ .noOpener .ok).1 (by decide) rfl
  · have h := ((claim_C4 ⟨"?code=abc&state=xyz", ""⟩ .noOpener .ok).2
      (Or.inl (by decide))).1 rfl
    simpa using h
  · exact (((claim_C4 ⟨"", ""⟩ .otherWindow (.fails (.errObj "No state in response"))).2
      (Or.inr rfl)).2 (.errObj "No state in response") rfl).1 rfl (by decide)
  · exact (((claim_C4 ⟨"?code=abc", ""⟩ .noOpener (.fails (.errObj "server_error"))).2
      (Or.inl (by decide))).2 (.errObj "server_error") rfl).2 (Or.inl rfl)

/-- The detector's key set, as a predicate on a parsed parameter list. -/
def detectKeysPresent (l : List (String × String)) : Bool :=
  hasParam l "code" || hasParam l "state" || hasParam l "error" || hasParam l "id_token"

/-- The specification's reading of the hash side of the callback detector:
parse after the fragment's own `?` when present, otherwise parse the whole
fragment only when its raw text contains `code=` or `state=`. -/
def hashDetectParams (h : String) : List (String × String) :=
  let hv := stripHashMark h.data
  match hv.findIdx? (fun c => c = '?') with
  | some i => parseQS (String.mk (hv.drop (i + 1)))
  | none =>
    if containsSeq "code=".data hv || containsSeq "state=".data hv then
      parseQS (String.mk hv)
    else []

/-- C3 counterexample: the spec says the hash fragment is consulted when
auth parameters are absent from the query, but the code consults the hash
only when the query parses to no parameters at all: with query
`?tab=settings` (no auth keys) and hash `#code=abc&state=xyz` (auth keys
present) the claimed reading yields true while `isRedirectCallback`
returns false. -/
theorem claim_C3_counterexample :
    detectKeysPresent (parseQS "?tab=settings") = false ∧
    detectKeysPresent (hashDetectParams "#code=abc&state=xyz") = true ∧
    isRedirectCallback ⟨"?tab=settings", "#code=abc&state=xyz"⟩ = false := by decide

/-- C3 (amended): the result is true iff the query string, or — only when
the query parses to no parameters at all — the hash fragment, contains any
of code, state, error, or id_token; hash handling parses everything after
a `?` inside the fragment as query parameters, and otherwise parses the
whole fragment as a parameter string only when its raw text contains
`code=` or `state=`; in particular it is true for query
`?code=abc&state=xyz`, true for only `#/route?code=abc`, true for only
`#code=abc&state=xyz`, and false when query and hash are empty. -/
theorem claim_C3 (loc : JsLocation) :
    (isRedirectCallback loc =
      if parseQS loc.search = [] then detectKeysPresent (hashDetectParams loc.hash)
      else detectKeysPresent (parseQS loc.search)) ∧
    isRedirectCallback ⟨"?code=abc&state=xyz", ""⟩ = true ∧
    isRedirectCallback ⟨"", "#/route?code=abc"⟩ = true ∧
    isRedirectCallback ⟨"", "#code=abc&state=xyz"⟩ = true ∧
    isRedirectCallback ⟨"", ""⟩ = false := by
  refine ⟨?_, by decide, by decide, by decide, by decide⟩
  unfold isRedirectCallback getAuthParamsFromLocation
  by_cases hq : parseQS loc.search = []
  · rw [if_pos hq, hq]
    rw [if_neg (by simp [serializeQS_nil])]
    by_cases hh : loc.hash = ""
    · rw [if_pos hh, hh]
      rfl
    · rw [if_neg hh]
      rfl
  · rw [if_neg hq]
    have hne : serializeQS (parseQS loc.search) ≠ "" := by
      cases hp : parseQS loc.search with
      | nil => exact absurd hp hq
      | cons p ps =>
        exact serializeQS_ne_empty p ps
    rw [if_pos hne]
    rfl

/-- C6 counterexample: the spec's roundtrip clause requires only that X
and env are non-empty and contain no `::`, but X = "a:" and env = "b"
satisfy that and still decode to a different record, because the payload
"a:::b" splits on the leftmost `::`. -/
theorem claim_C6_counterexample :
    containsSeq "::".data "a:".data = false ∧
    containsSeq "::".data "b".data = false ∧
    ("a:" : String).data ≠ [] ∧ ("b" : String).data ≠ [] ∧
    decodePublishableKey (mkPublishableKey "a:" "b") = .ok ⟨"a", ":b"⟩ ∧
    DecodedPublishableKey.mk "a" ":b" ≠ ⟨"a:", "b"⟩ := by decide

/-- C6 (amended): for every key of the form sh_publishable_{base64("X::env")}
with X and env non-empty, containing no "::", X not ending in ':', and both
made of Latin-1 characters, decoding returns {encryptedKey X, environment
env}; a string lacking the literal prefix fails with the invalid-key error;
a remainder not decodable as base64 after normalization fails with the
invalid-encoding error; a decoded text that does not split into exactly two
non-empty segments on "::" fails with the invalid-payload error.  The
model is a pure function, so decoding has no side effects. -/
theorem claim_C6 :
    (∀ x env : String, x.data ≠ [] → env.data ≠ [] →
      splitDC x.data = [x.data] → splitDC env.data = [env.data] →
      x.data.getLast? ≠ some ':' →
      (∀ c ∈ x.data, c.toNat < 256) → (∀ c ∈ env.data, c.toNat < 256) →
      decodePublishableKey (mkPublishableKey x env) = .ok ⟨x, env⟩) ∧
    (∀ s : String, pkHead.isPrefixOf s.data = false →
      decodePublishableKey s = .error .invalidKey) ∧
    (∀ s : String, pkHead.isPrefixOf s.data = true →
      atobStr? (normalizeBase64 (String.mk (s.data.drop pkHead.length))) = none →
      decodePublishableKey s = .error .invalidEncoding) ∧
    (∀ s decoded : String, pkHead.isPrefixOf s.data = true →
      atobStr? (normalizeBase64 (String.mk (s.data.drop pkHead.length))) = some decoded →
      (match splitDC decoded.data with
        | [p1, p2] => p1 = [] ∨ p2 = []
        | _ => True) →
      decodePublishableKey s = .error .invalidPayload) :=
  ⟨decodePublishableKey_mkKey, decodePublishableKey_noPrefix,
    decodePublishableKey_badEncoding, decodePublishableKey_badPayload⟩

theorem claim_C6_witness :
    decodePublishableKey (mkPublishableKey "abc123" "dev") = .ok ⟨"abc123", "dev"⟩ ∧
    decodePublishableKey "bogus" = .error .invalidKey ∧
    decodePublishableKey "sh_publishable_!!!" = .error .invalidEncoding ∧
    decodePublishableKey "sh_publishable_YQ==" = .error .invalidPayload := by
  refine ⟨?_, ?_, ?_, ?_⟩
  · exact claim_C6.1 "abc123" "dev" (by decide) (by decide) (by decide) (by decide)
      (by decide) (by decide) (by decide)
  · exact claim_C6.2.1 "bogus" (by decide)
  · exact claim_C6.2.2.1 "sh_publishable_!!!" (by decide) (by decide)
  · exact claim_C6.2.2.2 "sh_publishable_YQ==" "a" (by decide) (by decide) (by trivial)

/-- C10: for every Latin-1 byte payload, a publishable key built from the
URL-safe, pipe-substituted, or unpadded form of the standard base64
encoding decodes identically to one built from the standard encoding:
`decodePublishableKey` composed with `normalizeBase64` is invariant across
these encodings of the same bytes. -/
theorem claim_C10 (bs : List Nat) (h : ∀ b ∈ bs, b < 256) :
    (decodePublishableKey (String.mk (pkHead ++ (toUrlSafe (b64EncodeBytes bs)).data)) =
      decodePublishableKey (String.mk (pkHead ++ (b64EncodeBytes bs).data))) ∧
    (decodePublishableKey (String.mk (pkHead ++ (toPipe (b64EncodeBytes bs)).data)) =
      decodePublishableKey (String.mk (pkHead ++ (b64EncodeBytes bs).data))) ∧
    (decodePublishableKey (String.mk (pkHead ++ (dropPadding (b64EncodeBytes bs)).data)) =
      decodePublishableKey (String.mk (pkHead ++ (b64EncodeBytes bs).data))) ∧
    (decodePublishableKey
        (String.mk (pkHead ++ (dropPadding (toUrlSafe (b64EncodeBytes bs))).data)) =
      decodePublishableKey (String.mk (pkHead ++ (b64EncodeBytes bs).data))) ∧
    (decodePublishableKey
        (String.mk (pkHead ++ (dropPadding (toPipe (b64EncodeBytes bs))).data)) =
      decodePublishableKey (String.mk (pkHead ++ (b64EncodeBytes bs).data))) := by
  have hstd := normalizeBase64_encode bs h
  have hid : String.mk ((b64EncodeBytes bs).data.map (fun c => c)) = b64EncodeBytes bs := by
    rw [List.map_id']
  have hurl : normalizeBase64 (toUrlSafe (b64EncodeBytes bs)) = b64EncodeBytes bs :=
    normalizeBase64_variant bs h urlSafeChar (by decide) (by decide)
  have hpipe : normalizeBase64 (toPipe (b64EncodeBytes bs)) = b64EncodeBytes bs :=
    normalizeBase64_variant bs h pipeChar (by decide) (by decide)
  have hstdu : normalizeBase64 (dropPadding (b64EncodeBytes bs)) = b64EncodeBytes bs := by
    have hv := normalizeBase64_variant_unpad bs h (fun c => c)
      (fun n hn => (b64Char_facts n hn).2.2.2) (fun n hn => (b64Char_facts n hn).2.2.1) rfl
    rw [hid] at hv
    exact hv
  have hurlu : normalizeBase64 (dropPadding (toUrlSafe (b64EncodeBytes bs)))
      = b64EncodeBytes bs :=
    normalizeBase64_variant_unpad bs h urlSafeChar (by decide) (by decide) (by decide)
  have hpipeu : normalizeBase64 (dropPadding (toPipe (b64EncodeBytes bs)))
      = b64EncodeBytes bs :=
    normalizeBase64_variant_unpad bs h pipeChar (by decide) (by decide) (by decide)
  refine ⟨?_, ?_, ?_, ?_, ?_⟩
  · exact decode_mkKeyWith_congr _ _ (by rw [hurl, hstd])
  · exact decode_mkKeyWith_congr _ _ (by rw [hpipe, hstd])
  · exact decode_mkKeyWith_congr _ _ (by rw [hstdu, hstd])
  · exact decode_mkKeyWith_congr _ _ (by rw [hurlu, hstd])
  · exact decode_mkKeyWith_congr _ _ (by rw [hpipeu, hstd])

theorem claim_C10_witness :
    decodePublishableKey
        (String.mk (pkHead ++ (toUrlSafe (b64EncodeBytes [250, 251, 252])).data))
      = decodePublishableKey (String.mk (pkHead ++ (b64EncodeBytes [250, 251, 252]).data)) ∧
    decodePublishableKey
        (String.mk (pkHead ++ (dropPadding (toPipe (b64EncodeBytes [250, 251, 252]))).data))
      = decodePublishableKey (String.mk (pkHead ++ (b64EncodeBytes [250, 251, 252]).data)) :=
  ⟨(claim_C10 [250, 251, 252] (by decide)).1,
    (claim_C10 [250, 251, 252] (by decide)).2.2.2.2⟩

theorem qmark_not_mem_serializeQS (l : List (String × String)) :
    '?' ∉ (serializeQS l).data := by
  intro hm
  unfold serializeQS at hm
  rw [string_data_mk] at hm
  rcases mem_joinAmp _ _ hm with h | ⟨piece, hpiece, hcp⟩
  · exact absurd h (by decide)
  · rcases List.mem_map.mp hpiece with ⟨q, _, hqe⟩
    subst hqe
    exact (serializePair_chars q '?' hcp).2.2 rfl

theorem parseQS_qmark_serialize (l : List (String × String)) :
    parseQS ("?" ++ serializeQS l) = l := by
  have hbase := parseQS_serializeQS l
  unfold parseQS at hbase ⊢
  rw [stripQmark_id _ (qmark_not_mem_serializeQS l)] at hbase
  rw [string_data_append]
  rw [show ("?" : String).data = ['?'] from rfl]
  rw [List.singleton_append]
  rw [show stripQmark ('?' :: (serializeQS l).data) = (serializeQS l).data from by
    simp [stripQmark]]
  exact hbase

theorem hasParam_filter_scrub (l : List (String × String)) (k : String)
    (hk : isScrubKey k = true) :
    hasParam (l.filter (fun p => !isScrubKey p.1)) k = false := by
  induction l with
  | nil => rfl
  | cons p ps ih =>
    cases hsp : isScrubKey p.1 with
    | true => simpa [List.filter_cons, hsp] using ih
    | false =>
      have hne : (p.1 == k) = false := by
        rw [beq_eq_false_iff_ne]
        intro he
        rw [he, hk] at hsp
        exact Bool.noConfusion hsp
      simpa [List.filter_cons, hsp, hasParam, hne] using ih

/-- The hash reconstruction shape described by the specification: a
route prefix (kept verbatim) followed by `?` and the remaining
parameters when both are present, degenerating gracefully when either
is empty. -/
def rebuildHash (route : List Char) (params : List (String × String)) : String :=
  let cleaned := serializeQS params
  if route ≠ [] then
    if cleaned ≠ "" then "#" ++ String.mk route ++ "?" ++ cleaned
    else "#" ++ String.mk route
  else if cleaned ≠ "" then "#" ++ cleaned else ""

/-- C7 counterexample: after scrubbing `⟨"?tab=x%20y&code=abc",
"#code=x?state=y"⟩`, the hash `#code=x` still carries `code` in its
parameter sub-structure (the route prefix before `?` is never scrubbed
even when it is itself a parameter string), and the unrelated query
content is re-encoded (`%20` becomes `+`), not preserved verbatim. -/
theorem claim_C7_counterexample :
    clearAuthParamsFromUrl ⟨"?tab=x%20y&code=abc", "#code=x?state=y"⟩
      = ⟨"?tab=x+y", "#code=x"⟩ ∧
    hasParam (hashParamSubstructure "#code=x") "code" = true ∧
    ("?tab=x+y" : String) ≠ "?tab=x%20y" := by decide

/-- C7 (amended): after scrubbing, the query holds exactly the non-auth
parameters of the original query re-serialized in canonical
form-urlencoded form (so no auth key remains there, but content is not
byte-for-byte verbatim); the hash is left unchanged when it has no
parameter sub-structure, and otherwise is rebuilt from its route prefix
(everything before its own `?`, kept verbatim and never scrubbed) and
its remaining non-auth parameters in the route-prefix-plus-params
shape. -/
theorem claim_C7 (loc : JsLocation) :
    (parseQS (clearAuthParamsFromUrl loc).search
      = (parseQS loc.search).filter (fun p => !isScrubKey p.1)) ∧
    (∀ k, isScrubKey k = true →
      hasParam (parseQS (clearAuthParamsFromUrl loc).search) k = false) ∧
    (∀ (l : List (String × String)) (k : String), isScrubKey k = true →
      hasParam (l.filter (fun p => !isScrubKey p.1)) k = false) ∧
    (stripHashMark loc.hash.data = [] → (clearAuthParamsFromUrl loc).hash = loc.hash) ∧
    (∀ i, (stripHashMark loc.hash.data).findIdx? (fun c => c = '?') = some i →
      (clearAuthParamsFromUrl loc).hash
        = rebuildHash ((stripHashMark loc.hash.data).take i)
            ((parseQS (String.mk ((stripHashMark loc.hash.data).drop (i + 1)))).filter
              (fun p => !isScrubKey p.1))) ∧
    ((stripHashMark loc.hash.data).findIdx? (fun c => c = '?') = none →
      containsSeq ['='] (stripHashMark loc.hash.data) = true →
      (clearAuthParamsFromUrl loc).hash
        = rebuildHash []
            ((parseQS (String.mk (stripHashMark loc.hash.data))).filter
              (fun p => !isScrubKey p.1))) ∧
    ((stripHashMark loc.hash.data).findIdx? (fun c => c = '?') = none →
      containsSeq ['='] (stripHashMark loc.hash.data) = false →
      (clearAuthParamsFromUrl loc).hash = loc.hash) := by
  have hsearch : parseQS (clearAuthParamsFromUrl loc).search
      = (parseQS loc.search).filter (fun p => !isScrubKey p.1) := by
    unfold clearAuthParamsFromUrl
    by_cases hq : ((parseQS loc.search).filter (fun p => !isScrubKey p.1)).isEmpty = true
    · simp only [hq, if_true]
      rw [show parseQS "" = [] from rfl]
      exact (List.isEmpty_iff.mp hq).symm
    · simp only [hq, if_false]
      exact parseQS_qmark_serialize _
  refine ⟨hsearch, ?_, fun l k hk => hasParam_filter_scrub l k hk, ?_, ?_, ?_, ?_⟩
  · intro k hk
    rw [hsearch]
    exact hasParam_filter_scrub _ k hk
  · intro h0
    unfold clearAuthParamsFromUrl
    rw [h0]
    rfl
  · intro i hf
    have hne : stripHashMark loc.hash.data ≠ [] := by
      intro h0
      rw [h0] at hf
      exact absurd hf (by simp)
    have hemp : (stripHashMark loc.hash.data).isEmpty = false := by
      cases hc : stripHashMark loc.hash.data with
      | nil => exact absurd hc hne
      | cons a l => rfl
    unfold clearAuthParamsFromUrl
    simp only [hemp, hf]
    rfl
  · intro hf hcs
    have hne : stripHashMark loc.hash.data ≠ [] := by
      intro h0
      rw [h0] at hcs
      exact absurd hcs (by decide)
    have hemp : (stripHashMark loc.hash.data).isEmpty = false := by
      cases hc : stripHashMark loc.hash.data with
      | nil => exact absurd hc hne
      | cons a l => rfl
    unfold clearAuthParamsFromUrl
    simp only [hemp, hf, hcs]
    rfl
  · intro hf hcs
    by_cases hemp : (stripHashMark loc.hash.data).isEmpty = true
    · unfold clearAuthParamsFromUrl
      simp only [hemp]
      rfl
    · have hempf : (stripHashMark loc.hash.data).isEmpty = false := by
        cases hb : (stripHashMark loc.hash.data).isEmpty with
        | true => exact absurd hb hemp
        | false => rfl
      unfold clearAuthParamsFromUrl
      simp only [hempf, hf, hcs]
      rfl

theorem claim_C7_witness :
    parseQS (clearAuthParamsFromUrl ⟨"?tab=settings&code=abc", "#/route?code=9&tab=2"⟩).search
      = [("tab", "settings")] ∧
    (clearAuthParamsFromUrl ⟨"?tab=settings&code=abc", "#/route?code=9&tab=2"⟩).hash
      = rebuildHash "/route".data [("tab", "2")] := by
  constructor
  · have h := (claim_C7 ⟨"?tab=settings&code=abc", "#/route?code=9&tab=2"⟩).1
    rw [h]
    decide
  · have h := (claim_C7 ⟨"?tab=settings&code=abc", "#/route?code=9&tab=2"⟩).2.2.2.2.1 6
      (by decide)
    rw [h]
    decide

/-- C5 counterexample: the initial emission does not reflect the session
state at subscription time: subscribing with no stored user and then
storing a fresh user before the scheduled initial fetch resolves makes
the single initial emission report the later, authenticated state
instead of the unauthenticated call-time state. -/
theorem claim_C5_counterexample :
    toAuthState none = ⟨none, false⟩ ∧
    (brun (subscribeState none)
        [.setStored (some ⟨"tok", false⟩), .completeFetch]).emissions
      = [(⟨some ⟨"tok", false⟩, true⟩, "authenticated")] ∧
    ((⟨some ⟨"tok", false⟩, true⟩ : AuthState), ("authenticated" : String))
      ≠ (⟨none, false⟩, toAuthStateChangeTrigger none) := by decide

/-- C5 (amended): subscribing delivers nothing synchronously and schedules
exactly one initial fetch; when that fetch completes, the single initial
emission reflects the stored session as read at completion time (equal to
the call-time state whenever the store is not modified in between); after
unsubscribing — which clears the subscription flag and deregisters all
five handlers — no sequence of further actions, including completing a
fetch already in flight, ever adds an emission; and unsubscribe is
idempotent. -/
theorem claim_C5 :
    (∀ u0, (subscribeState u0).emissions = []) ∧
    (∀ u0, brun (subscribeState u0) [.completeFetch]
      = { storedUser := u0, isSubscribed := true, handlers := allHandlers,
          pendingFetches := 0,
          emissions := [(toAuthState u0, toAuthStateChangeTrigger u0)] }) ∧
    (∀ s : BroadcastState, s.isSubscribed = false → s.handlers = noHandlers →
      ∀ as, (brun s as).emissions = s.emissions) ∧
    (∀ s, (bstep s .unsubscribe).isSubscribed = false ∧
      (bstep s .unsubscribe).handlers = noHandlers) ∧
    (∀ s, bstep (bstep s .unsubscribe) .unsubscribe = bstep s .unsubscribe) := by
  refine ⟨fun u0 => rfl, fun u0 => rfl, ?_, fun s => ⟨rfl, rfl⟩, fun s => rfl⟩
  intro s hsub hhand as
  induction as generalizing s with
  | nil => rfl
  | cons a as ih =>
    have key : (bstep s a).emissions = s.emissions ∧ (bstep s a).isSubscribed = false ∧
        (bstep s a).handlers = noHandlers := by
      cases a with
      | setStored u => exact ⟨rfl, hsub, hhand⟩
      | fireUserLoaded u =>
        rw [show bstep s (.fireUserLoaded u) = s from by
          rw [bstep, hhand]
          rfl]
        exact ⟨rfl, hsub, hhand⟩
      | fireUserUnloaded =>
        rw [show bstep s .fireUserUnloaded = s from by
          rw [bstep, hhand]
          rfl]
        exact ⟨rfl, hsub, hhand⟩
      | fireUserSignedOut =>
        rw [show bstep s .fireUserSignedOut = s from by
          rw [bstep, hhand]
          rfl]
        exact ⟨rfl, hsub, hhand⟩
      | fireAccessTokenExpired =>
        rw [show bstep s .fireAccessTokenExpired = s from by
          rw [bstep, hhand]
          rfl]
        exact ⟨rfl, hsub, hhand⟩
      | fireSilentRenewError =>
        rw [show bstep s .fireSilentRenewError = s from by
          rw [bstep, hhand]
          rfl]
        exact ⟨rfl, hsub, hhand⟩
      | completeFetch =>
        cases hp : s.pendingFetches with
        | zero =>
          rw [show bstep s .completeFetch = s from by rw [bstep, hp]]
          exact ⟨rfl, hsub, hhand⟩
        | succ n =>
          rw [show bstep s .completeFetch = { s with pendingFetches := n } from by
            rw [bstep, hp]
            show emitState { s with pendingFetches := n } s.storedUser = _
            unfold emitState
            rw [if_neg (by
              rw [show ({ s with pendingFetches := n } : BroadcastState).isSubscribed
                = false from hsub]
              exact Bool.false_ne_true)]]
          exact ⟨rfl, hsub, hhand⟩
      | unsubscribe => exact ⟨rfl, rfl, rfl⟩
    obtain ⟨he, hsub', hhand'⟩ := key
    calc (brun s (a :: as)).emissions = (brun (bstep s a) as).emissions := rfl
      _ = (bstep s a).emissions := ih (bstep s a) hsub' hhand'
      _ = s.emissions := he

theorem claim_C5_witness :
    (brun { storedUser := some ⟨"tok", false⟩, isSubscribed := false,
            handlers := noHandlers, pendingFetches := 1, emissions := [] }
        [.completeFetch, .fireUserLoaded ⟨"tok", false⟩]).emissions = [] :=
  claim_C5.2.2.1 _ rfl rfl [.completeFetch, .fireUserLoaded ⟨"tok", false⟩]

theorem dropWhile_all_false (p : Char → Bool) (l : List Char) (h : ∀ c ∈ l, p c = false) :
    l.dropWhile p = l := by
  cases l with
  | nil => rfl
  | cons c rest =>
    rw [List.dropWhile_cons, h c (List.mem_cons_self _ _)]
    rfl

theorem jsTrim_id (s : String) (h : ∀ c ∈ s.data, isJsWs c = false) : jsTrim s = s := by
  unfold jsTrim
  rw [dropWhile_all_false _ _ h]
  rw [dropWhile_all_false _ _ (fun c hc => h c (by rwa [List.mem_reverse] at hc))]
  rw [List.reverse_reverse]

theorem mkKey_no_ws (x env : String) (hx256 : ∀ c ∈ x.data, c.toNat < 256)
    (henv256 : ∀ c ∈ env.data, c.toNat < 256) :
    ∀ c ∈ (mkPublishableKey x env).data, isJsWs c = false := by
  have hall256 : ∀ b ∈ strBytes (x ++ "::" ++ env), b < 256 := by
    apply strBytes_lt_256
    intro c hc
    rw [string_data_append, string_data_append, List.append_assoc] at hc
    rw [show ("::" : String).data = [':', ':'] from rfl] at hc
    rw [List.mem_append] at hc
    rcases hc with hc | hc
    · exact hx256 c hc
    · rcases List.mem_cons.mp hc with hc | hc
      · subst hc
        decide
      · rcases List.mem_cons.mp hc with hc | hc
        · subst hc
          decide
        · exact henv256 c hc
  intro c hc
  unfold mkPublishableKey at hc
  rw [string_data_mk, List.mem_append] at hc
  rcases hc with hc | hc
  · exact (by decide : ∀ c ∈ pkHead, isJsWs c = false) c hc
  · rw [b64EncodeBytes_data, List.mem_append] at hc
    rcases hc with hc | hc
    · rcases b64Chunks_mem _ hall256 c hc with ⟨n, hn, he⟩
      subst he
      exact (by decide : ∀ n < 64, isJsWs (b64Char n) = false) n hn
    · rw [List.eq_of_mem_replicate hc]
      decide

theorem mkKey_ne_empty (x env : String) : mkPublishableKey x env ≠ "" := by
  intro h0
  have hd : (mkPublishableKey x env).data = [] := by rw [h0]
  unfold mkPublishableKey at hd
  rw [string_data_mk] at hd
  exact absurd (List.append_eq_nil.mp hd).1 (by decide)

theorem shape_url_ne_empty (env : String) :
    ("https://apis." ++ env ++ ".synchive.com/v1/shape") ≠ "" := by
  intro h0
  have hd : ("https://apis." ++ env ++ ".synchive.com/v1/shape").data = [] := by rw [h0]
  rw [string_data_append, string_data_append] at hd
  rw [List.append_assoc] at hd
  exact absurd (List.append_eq_nil.mp hd).1 (by decide)

theorem constructClient_pkMode (k : String) (d : DecodedPublishableKey)
    (overrides : AuthOverrides) (origin : String)
    (htrim : jsTrim k = k) (hk : k ≠ "") (hdec : decodePublishableKey k = .ok d) :
    constructClient ⟨some k, none, none, overrides, true⟩ true origin true
      = .ok ⟨"https://apis." ++ d.environment ++ ".synchive.com/v1/shape",
          { applyOverrides
              { authority := "https://apis." ++ d.environment ++ ".synchive.com/v1/auth/"
                client_id := k
                redirect_uri := urlStringOfOrigin origin
                silent_redirect_uri := urlStringOfOrigin origin
                response_type := "code"
                scope := "openid profile offline_access"
                userStoreBound := false
                stateStoreBound := false } overrides with
            userStoreBound := true, stateStoreBound := true }⟩ := by
  unfold constructClient
  simp only [Option.map_some', htrim]
  rw [if_neg hk]
  simp only [hdec, Except.map, Option.map_some', Option.none_orElse]
  rw [if_neg (shape_url_ne_empty d.environment)]
  rfl

/-- C8 counterexample: the derived redirect URI is not the origin itself
but the origin serialized as a URL, which appends a trailing slash. -/
theorem claim_C8_counterexample :
    (constructClient ⟨some (mkPublishableKey "abc123" "dev"), none, none, noOverrides, true⟩
        true "https://app.example.com" true).map (fun cfg => cfg.auth.redirect_uri)
      = .ok "https://app.example.com/" ∧
    ("https://app.example.com/" : String) ≠ "https://app.example.com" := by decide

/-- C8 (amended): for every valid publishable key decoding to environment
env, the resolved configuration has authority
https://apis.{env}.synchive.com/v1/auth/, client identifier equal to the
raw publishable key, redirect and silent-redirect URIs equal to the
current origin serialized as a URL (the origin followed by a trailing
slash), response type "code", and scope "openid profile offline_access";
the derived data API base is https://apis.{env}.synchive.com/v1/shape;
caller-supplied overrides are shallow-merged on top and may replace any
of the derived fields. -/
theorem claim_C8 (x env : String) (overrides : AuthOverrides) (origin : String)
    (hx : x.data ≠ []) (henv : env.data ≠ [])
    (hxdc : splitDC x.data = [x.data]) (henvdc : splitDC env.data = [env.data])
    (hxlast : x.data.getLast? ≠ some ':')
    (hx256 : ∀ c ∈ x.data, c.toNat < 256) (henv256 : ∀ c ∈ env.data, c.toNat < 256) :
    (constructClient ⟨some (mkPublishableKey x env), none, none, overrides, true⟩
        true origin true
      = .ok ⟨"https://apis." ++ env ++ ".synchive.com/v1/shape",
          { applyOverrides
              { authority := "https://apis." ++ env ++ ".synchive.com/v1/auth/"
                client_id := mkPublishableKey x env
                redirect_uri := urlStringOfOrigin origin
                silent_redirect_uri := urlStringOfOrigin origin
                response_type := "code"
                scope := "openid profile offline_access"
                userStoreBound := false
                stateStoreBound := false } overrides with
            userStoreBound := true, stateStoreBound := true }⟩) ∧
    urlStringOfOrigin origin = origin ++ "/" ∧
    (∀ (d : UserManagerSettings) (oa oc orr osr ort osc : String),
      applyOverrides d ⟨some oa, some oc, some orr, some osr, some ort, some osc⟩
        = ⟨oa, oc, orr, osr, ort, osc, d.userStoreBound, d.stateStoreBound⟩) := by
  refine ⟨?_, rfl, fun d oa oc orr osr ort osc => rfl⟩
  exact constructClient_pkMode (mkPublishableKey x env) ⟨x, env⟩ overrides origin
    (jsTrim_id _ (mkKey_no_ws x env hx256 henv256))
    (mkKey_ne_empty x env)
    (decodePublishableKey_mkKey x env hx henv hxdc henvdc hxlast hx256 henv256)

theorem claim_C8_witness :
    constructClient ⟨some (mkPublishableKey "abc123" "dev"), none, none, noOverrides, true⟩
        true "https://app.example.com" true
      = .ok ⟨"https://apis.dev.synchive.com/v1/shape",
          ⟨"https://apis.dev.synchive.com/v1/auth/", mkPublishableKey "abc123" "dev",
            "https://app.example.com/", "https://app.example.com/", "code",
            "openid profile offline_access", true, true⟩⟩ := by
  have h := (claim_C8 "abc123" "dev" noOverrides "https://app.example.com"
    (by decide) (by decide) (by decide) (by decide) (by decide) (by decide) (by decide)).1
  rw [h]
  decide

/-- A concrete explicit OIDC settings object, for exercising explicit-auth
precedence. -/
def sampleAuth : UserManagerSettings :=
  ⟨"https://auth.example/", "client", "https://app.example/", "https://app.example/",
    "code", "openid", false, false⟩

/-- C9 counterexample: with explicit auth settings supplied, settings
resolution indeed ignores the publishable key, but the constructor still
eagerly decodes any non-empty key first, so construction fails for a
malformed key instead of succeeding for any publishableKey string. -/
theorem claim_C9_counterexample :
    constructClient ⟨some "bogus", some "https://api.example.com", some sampleAuth,
        noOverrides, true⟩ true "https://app.example" true
      = .error (.keyError .invalidKey) ∧
    resolveAuthSettings (some "bogus") none (some sampleAuth) noOverrides true
        "https://app.example"
      = .ok { sampleAuth with userStoreBound := true, stateStoreBound := true } := by decide

/-- C9 (amended): explicit auth settings take precedence in settings
resolution — the resolved configuration equals the explicit settings with
only the two store bindings injected, for every publishable key and
derived value — and construction succeeds with that configuration when
the key is absent (or the key is present and well-formed); but the
constructor eagerly decodes any non-empty publishable key before
resolution, so a malformed key fails construction with its decode error
even though explicit settings are supplied; a key that is absent or
trims to the empty string is skipped and construction succeeds. -/
theorem claim_C9 (a : UserManagerSettings) (o : AuthOverrides) (pk : Option String)
    (derived : Option DecodedPublishableKey) (wp : Bool) (origin : String) :
    (resolveAuthSettings pk derived (some a) o wp origin
      = .ok { a with userStoreBound := true, stateStoreBound := true }) ∧
    (∀ opts : SyncHiveOptions, opts.auth = some a →
      ∀ k e, opts.publishableKey = some k → jsTrim k ≠ "" →
        decodePublishableKey (jsTrim k) = .error e →
        constructClient opts wp origin true = .error (.keyError e)) ∧
    (∀ opts : SyncHiveOptions, opts.auth = some a → opts.publishableKey = none →
      ∀ u, opts.apiBaseUrl = some u → u ≠ "" →
        constructClient opts wp origin true
          = .ok ⟨u, { a with userStoreBound := true, stateStoreBound := true }⟩) ∧
    (∀ opts : SyncHiveOptions, opts.auth = some a →
      ∀ k d, opts.publishableKey = some k → jsTrim k ≠ "" →
        decodePublishableKey (jsTrim k) = .ok d → opts.apiBaseUrl = none →
        constructClient opts wp origin true
          = .ok ⟨"https://apis." ++ d.environment ++ ".synchive.com/v1/shape",
              { a with userStoreBound := true, stateStoreBound := true }⟩) ∧
    (∀ opts : SyncHiveOptions, opts.auth = some a →
      ∀ k, opts.publishableKey = some k → jsTrim k = "" →
        ∀ u, opts.apiBaseUrl = some u → u ≠ "" →
          constructClient opts wp origin true
            = .ok ⟨u, { a with userStoreBound := true, stateStoreBound := true }⟩) := by
  refine ⟨rfl, ?_, ?_, ?_, ?_⟩
  · intro opts hauth k e hpk htr hdec
    unfold constructClient
    rw [hpk]
    simp only [Option.map_some']
    rw [if_neg htr]
    simp only [hdec, Except.map]
  · intro opts hauth hpk u hau hu
    unfold constructClient
    rw [hpk, hau, hauth]
    simp only [Option.map_none', Option.map_some', Option.some_orElse, Except.map]
    rw [if_neg hu]
    simp only [Bool.or_true, Bool.not_true, Bool.false_eq_true, if_false]
    rfl
  · intro opts hauth k d hpk htr hdec hau
    unfold constructClient
    rw [hpk, hau, hauth]
    simp only [Option.map_some']
    rw [if_neg htr]
    simp only [hdec, Except.map, Option.map_some', Option.none_orElse]
    rw [if_neg (shape_url_ne_empty d.environment)]
    simp only [Bool.or_true, Bool.not_true, Bool.false_eq_true, if_false]
    rfl
  · intro opts hauth k hpk htr u hau hu
    unfold constructClient
    rw [hpk, hau, hauth]
    simp only [Option.map_some', htr, if_true, Option.map_none', Option.some_orElse]
    rw [if_neg hu]
    simp only [Bool.or_true, Bool.not_true, Bool.false_eq_true, if_false]
    rfl

theorem claim_C9_witness :
    constructClient ⟨none, some "https://api.example.com", some sampleAuth, noOverrides,
        false⟩ true "https://o.example" true
      = .ok ⟨"https://api.example.com",
          { sampleAuth with userStoreBound := true, stateStoreBound := true }⟩ ∧
    constructClient ⟨some "oops", none, some sampleAuth, noOverrides, true⟩
        true "https://o.example" true
      = .error (.keyError .invalidKey) ∧
    constructClient ⟨some "  ", some "https://api.example.com", some sampleAuth,
        noOverrides, true⟩ true "https://o.example" true
      = .ok ⟨"https://api.example.com",
          { sampleAuth with userStoreBound := true, stateStoreBound := true }⟩ := by
  refine ⟨?_, ?_, ?_⟩
  · exact (claim_C9 sampleAuth noOverrides none none true "https://o.example").2.2.1
      ⟨none, some "https://api.example.com", some sampleAuth, noOverrides, false⟩
      rfl rfl "https://api.example.com" rfl (by decide)
  · exact (claim_C9 sampleAuth noOverrides none none true "https://o.example").2.1
      ⟨some "oops", none, some sampleAuth, noOverrides, true⟩
      rfl "oops" .invalidKey rfl (by decide) (by decide)
  · exact (claim_C9 sampleAuth noOverrides none none true "https://o.example").2.2.2.2
      ⟨some "  ", some "https://api.example.com", some sampleAuth, noOverrides, true⟩
      rfl "  " rfl (by decide) "https://api.example.com" rfl (by decide)
